import Mathlib

/-!
Verification of the navigation stack in `PilotDanker/ESP32-the-Sequel`.

Shallow embedding of two source files:
* `esp32_code/Dijkstra.py` — grid, Dijkstra planner, action translation, and
  the planning-side message-handling loop;
* `controllers/the_sequel_bot.py/the_sequel_bot.py.py` — the Webots motion
  loop: turn state machine, obstacle detector, effective-command resolution.

Python `dict`s are embedded as association lists (first-match lookup,
in-place overwrite), tuples `(row, col)` as `Int × Int`, and the sort-based
`SimplePriorityQueue` (append then stable sort by priority) as a stable
ordered insert, which coincides with append-then-stable-sort on the always
sorted queues the algorithm builds.  The unbounded `while` loops are given
explicit fuel; fuel bounds are proved sufficient, so the embedding agrees
with the Python semantics on every input.  Times and sensor/speed values are
embedded as rationals, angles as reals with `math.atan2 y x` embedded as
`Complex.arg (x + y i)`.
-/

namespace ESP32

/-! ## Grid model (`Dijkstra.py`, lines 19-39) -/

abbrev Cell := Int × Int

def GRID_ROWS : Nat := 15
def GRID_COLS : Nat := 21

/-- The fixed grid: 0 = black line (pathable), 1 = white space (obstacle). -/
def grid_map : List (List Nat) := [
    [1,1,1,1,1,1,1,1,1,1,1,1,1,1,0,1,0,1,0,1,0],
    [1,1,1,1,1,1,1,1,1,1,1,1,1,1,0,1,0,1,0,1,0],
    [0,0,0,0,0,0,0,0,0,0,0,0,0,0,0,0,0,0,0,0,0],
    [0,1,1,1,1,1,1,1,1,1,0,1,1,1,1,1,1,1,1,1,0],
    [0,1,1,1,1,1,1,1,1,1,0,1,1,1,1,1,1,1,1,1,0],
    [0,0,0,0,0,0,0,0,0,0,0,1,1,1,1,1,1,1,1,1,0],
    [0,1,1,1,1,1,1,1,1,1,0,1,1,1,1,1,1,1,1,1,0],
    [0,0,0,0,0,0,0,0,0,0,0,0,0,0,0,0,0,0,0,0,0],
    [0,1,1,1,1,1,1,1,1,1,0,1,1,1,1,1,1,1,1,1,0],
    [0,1,1,1,1,1,1,1,1,1,0,0,0,0,0,0,0,0,0,0,0],
    [0,1,1,1,1,1,1,1,1,1,0,1,1,1,1,1,1,1,1,1,0],
    [0,1,1,1,1,1,1,1,1,1,0,1,1,1,1,1,1,1,1,1,0],
    [0,0,0,0,0,0,0,0,0,0,0,0,0,0,0,0,0,0,0,0,0],
    [0,1,0,1,0,1,0,1,1,1,1,1,1,1,1,1,1,1,1,1,1],
    [0,1,0,1,0,1,0,1,1,1,1,1,1,1,1,1,1,1,1,1,1]]

/-- `grid[r][c]` for indices that have already passed the `0 ≤ · < bound`
checks (the source never indexes otherwise); defaults are never reached
on such indices. -/
def gridAt (grid : List (List Nat)) (r c : Int) : Nat :=
  ((grid.getD r.toNat []).getD c.toNat 1)

/-- The bounds-and-pathability test the source writes inline both in
`dijkstra`'s endpoint validation and in `get_valid_neighbors`. -/
def cellOk (grid : List (List Nat)) (rows cols : Nat) (r c : Int) : Prop :=
  0 ≤ r ∧ r < (rows : Int) ∧ 0 ≤ c ∧ c < (cols : Int) ∧ gridAt grid r c = 0

instance (grid : List (List Nat)) (rows cols : Nat) (r c : Int) :
    Decidable (cellOk grid rows cols r c) :=
  inferInstanceAs (Decidable
    (0 ≤ r ∧ r < (rows : Int) ∧ 0 ≤ c ∧ c < (cols : Int) ∧ gridAt grid r c = 0))

/-! ## `get_valid_neighbors` (`Dijkstra.py`, lines 69-76) -/

/-- Right, Left, Down, Up offsets, in source order. -/
def neighborOffsets : List (Int × Int) := [(0, 1), (0, -1), (1, 0), (-1, 0)]

def get_valid_neighbors (r c : Int) (rows cols : Nat) (grid : List (List Nat)) :
    List (Cell × Nat) :=
  neighborOffsets.filterMap fun d =>
    if cellOk grid rows cols (r + d.1) (c + d.2) then
      some ((r + d.1, c + d.2), 1)
    else none

/-! ## `SimplePriorityQueue` (`Dijkstra.py`, lines 53-67)

The source keeps a list, appends on `put` and re-sorts by priority with a
stable sort, and pops the front on `get`.  On a queue that is already sorted
(which every queue built by `put` is), append-then-stable-sort places the
new entry after every entry of priority ≤ its own and before every entry of
strictly greater priority, which is the stable insert below. -/

def pqPut : List (Cell × Nat) → Cell → Nat → List (Cell × Nat)
  | [], item, p => [(item, p)]
  | e :: rest, item, p =>
    if e.2 ≤ p then e :: pqPut rest item p else (item, p) :: e :: rest

/-! ## Dijkstra state: `cost_so_far` and `came_from` dicts

Association lists with first-match lookup and in-place overwrite.  The
`came_from` dict maps the start node to Python `None` and every relaxed node
to its parent; the source only reads it through `dict.get`, which returns
`None` also for absent keys, so lookups below are joined. -/

def alookup {α : Type} : List (Cell × α) → Cell → Option α
  | [], _ => none
  | (k, v) :: rest, key => if key = k then some v else alookup rest key

def aset {α : Type} : List (Cell × α) → Cell → α → List (Cell × α)
  | [], k, v => [(k, v)]
  | (k', v') :: rest, k, v =>
    if k = k' then (k, v) :: rest else (k', v') :: aset rest k v

structure DState where
  queue : List (Cell × Nat)
  cost : List (Cell × Nat)
  came : List (Cell × Option Cell)

/-- One relaxation (`Dijkstra.py`, lines 105-111).  `cost_so_far[current]`
is always present when this runs (proved as an invariant), so the `getD`
default is never taken. -/
def relax (cur : Cell) (s : DState) (nb : Cell × Nat) : DState :=
  let newCost := (alookup s.cost cur).getD 0 + nb.2
  match alookup s.cost nb.1 with
  | none =>
      { queue := pqPut s.queue nb.1 newCost
        cost := aset s.cost nb.1 newCost
        came := aset s.came nb.1 (some cur) }
  | some old =>
      if newCost < old then
        { queue := pqPut s.queue nb.1 newCost
          cost := aset s.cost nb.1 newCost
          came := aset s.came nb.1 (some cur) }
      else s

/-- The body of one loop iteration after the popped node `cur` failed the
goal test: relax all valid neighbors in source order. -/
def expand (rows cols : Nat) (grid : List (List Nat)) (cur : Cell) (s : DState) :
    DState :=
  (get_valid_neighbors cur.1 cur.2 rows cols grid).foldl (relax cur) s

/-- The `while not pq.is_empty()` loop (`Dijkstra.py`, lines 97-111), with
fuel standing in for the unbounded Python loop.  Returns the final state and
the `path_found` flag; `none` (fuel exhausted) is proved unreachable for the
fuel used by `dijkstra`. -/
def dloop (rows cols : Nat) (grid : List (List Nat)) (endNode : Cell) :
    Nat → DState → Option (DState × Bool)
  | 0, _ => none
  | fuel + 1, s =>
    match s.queue with
    | [] => some (s, false)
    | (cur, _) :: rest =>
      if cur = endNode then some ({ s with queue := rest }, true)
      else dloop rows cols grid endNode fuel (expand rows cols grid cur { s with queue := rest })

/-- Path reconstruction (`Dijkstra.py`, lines 118-123): follow `came_from`
from the end node, prepending as we go (the source appends and reverses at
the end, which builds the same list).  Fuel is proved sufficient. -/
def recon (came : List (Cell × Option Cell)) :
    Nat → Option Cell → List Cell → List Cell
  | _, none, acc => acc
  | 0, some _, acc => acc
  | fuel + 1, some n, acc => recon came fuel ((alookup came n).join) (n :: acc)

def loopFuel (rows cols : Nat) : Nat :=
  5 * (rows * cols + 1) * (rows * cols + 1) + rows * cols + 2

def reconFuel (rows cols : Nat) : Nat := rows * cols + 2

/-- `dijkstra` (`Dijkstra.py`, lines 78-130). -/
def dijkstra (grid : List (List Nat)) (startNode endNode : Cell) : List Cell :=
  let rows := grid.length
  let cols := (grid.headD []).length
  if ¬ cellOk grid rows cols startNode.1 startNode.2 then []
  else if ¬ cellOk grid rows cols endNode.1 endNode.2 then []
  else
    let s0 : DState :=
      { queue := [(startNode, 0)], cost := [(startNode, 0)], came := [(startNode, none)] }
    match dloop rows cols grid endNode (loopFuel rows cols) s0 with
    | none => []
    | some (_, false) => []
    | some (s, true) =>
      let path := recon s.came (reconFuel rows cols) (some endNode) []
      -- `if path[0] != start_node: return []` — the reconstructed chain is
      -- never empty, and is proved to start at `startNode`.
      if path.head? = some startNode then path else []

/-! ## Proof-side graph notions for the planner -/

/-- `b` is one of the valid 4-connected neighbors of `a` (in bounds, pathable,
edge cost 1), exactly as enumerated by `get_valid_neighbors`. -/
def IsStep (rows cols : Nat) (grid : List (List Nat)) (a b : Cell) : Prop :=
  (b, 1) ∈ get_valid_neighbors a.1 a.2 rows cols grid

/-- A walk of `n` edges from `a` to `b` over valid neighbor steps, grown at
the end. -/
inductive GoodPath (rows cols : Nat) (grid : List (List Nat)) : Cell → Cell → Nat → Prop
  | nil (a : Cell) (h : cellOk grid rows cols a.1 a.2) : GoodPath rows cols grid a a 0
  | snoc {a b c : Cell} {n : Nat} (hp : GoodPath rows cols grid a b n)
      (hs : IsStep rows cols grid b c) : GoodPath rows cols grid a c (n + 1)

instance (rows cols : Nat) (grid : List (List Nat)) (a b : Cell) :
    Decidable (IsStep rows cols grid a b) :=
  inferInstanceAs (Decidable ((b, 1) ∈ get_valid_neighbors a.1 a.2 rows cols grid))

def Reach (rows cols : Nat) (grid : List (List Nat)) (a b : Cell) : Prop :=
  ∃ n, GoodPath rows cols grid a b n

/-- The cells differ by exactly one row or exactly one column, never both. -/
def UnitStep (a b : Cell) : Prop :=
  (a.1 = b.1 ∧ (b.2 = a.2 + 1 ∨ b.2 = a.2 - 1)) ∨
  (a.2 = b.2 ∧ (b.1 = a.1 + 1 ∨ b.1 = a.1 - 1))

/-- Core loop invariant of the Dijkstra state (everything except the
expansion property). -/
structure DCore (rows cols : Nat) (grid : List (List Nat)) (start : Cell)
    (s : DState) : Prop where
  sorted : s.queue.Pairwise (fun a b => a.2 ≤ b.2)
  qmem : ∀ e ∈ s.queue, ∃ k, alookup s.cost e.1 = some k ∧ k ≤ e.2
  startCost : alookup s.cost start = some 0
  startCame : alookup s.came start = some none
  cameOk : ∀ v u, alookup s.came v = some (some u) →
    IsStep rows cols grid u v ∧
      ∃ j k, alookup s.cost u = some j ∧ alookup s.cost v = some k ∧ j < k
  cameTotal : ∀ v k, alookup s.cost v = some k → v ≠ start →
    ∃ u, alookup s.came v = some (some u)
  costOk : ∀ v k, alookup s.cost v = some k → cellOk grid rows cols v.1 v.2
  reachesIt : ∀ v k, alookup s.cost v = some k → Reach rows cols grid start v
  keysNodup : (s.cost.map Prod.fst).Nodup
  bounded : ∀ v k, alookup s.cost v = some k → k + 1 ≤ s.cost.length

/-- Every costed node either still has a queue entry at exactly its current
cost, or all its neighbors have been relaxed at that cost. -/
def Expanded (rows cols : Nat) (grid : List (List Nat)) (s : DState) : Prop :=
  ∀ v k, alookup s.cost v = some k →
    (v, k) ∈ s.queue ∨
      ∀ nb ∈ get_valid_neighbors v.1 v.2 rows cols grid,
        ∃ j, alookup s.cost nb.1 = some j ∧ j ≤ k + nb.2

/-- Mid-expansion weakening of `Expanded`: the node being expanded is exempt. -/
def ExpandedBut (rows cols : Nat) (grid : List (List Nat)) (cur : Cell)
    (s : DState) : Prop :=
  ∀ v k, alookup s.cost v = some k →
    (v, k) ∈ s.queue ∨ v = cur ∨
      ∀ nb ∈ get_valid_neighbors v.1 v.2 rows cols grid,
        ∃ j, alookup s.cost nb.1 = some j ∧ j ≤ k + nb.2

def DInv (rows cols : Nat) (grid : List (List Nat)) (start : Cell) (s : DState) : Prop :=
  DCore rows cols grid start s ∧ Expanded rows cols grid s

/-- The goal still has a chance of being popped: it is either uncosted or has
an entry waiting in the queue. -/
def EndPending (endNode : Cell) (s : DState) : Prop :=
  alookup s.cost endNode = none ∨ ∃ e ∈ s.queue, e.1 = endNode

/-- Termination potential of the cost table: relaxations strictly decrease it. -/
def costPhi (cells : Nat) (s : DState) : Nat :=
  (s.cost.map Prod.snd).sum + (cells + 1) * (cells - s.cost.length)

/-- Termination measure of the whole loop state. -/
def dMeasure (cells : Nat) (s : DState) : Nat :=
  5 * costPhi cells s + s.queue.length

/-! ## Webots controller constants (`the_sequel_bot.py.py`, lines 44-69)

Float constants are embedded as exact rationals; times, speeds and sensor
values are rationals throughout. -/

def GOAL_ROW : Int := 14
def GOAL_COL : Int := 4
def FORWARD_SPEED : ℚ := 1.5
def LINE_THRESHOLD : ℚ := 600
def DISTANCE_SENSOR_THRESHOLD : ℚ := 110
def OBSTACLE_DETECTION_ENABLED : Bool := true
def TURN_SPEED_FACTOR : ℚ := 1.5
def MIN_INITIAL_SPIN_DURATION : ℚ := 0.6
def MAX_SEARCH_SPIN_DURATION : ℚ := 18.9
def MAX_ADJUST_DURATION : ℚ := 2.20
def TURN_ADJUST_BASE_SPEED : ℚ := FORWARD_SPEED * 0.8
def TURN_UNTIL_LINE_FOUND : Bool := true
def AGGRESSIVE_CORRECTION_DIFFERENTIAL : ℚ := FORWARD_SPEED * 1.3
def MODERATE_CORRECTION_DIFFERENTIAL : ℚ := FORWARD_SPEED * 1.2
def GRID_CELL_SIZE : ℚ := 0.05099
def GRID_ORIGIN_X : ℚ := 0.050002
def GRID_ORIGIN_Z : ℚ := -0.00000639

/-! ## `TurnController` (`the_sequel_bot.py.py`, lines 192-306)

Line sensors are the three 0/1 ints of `line_detected`; Python truthiness of
an int is `≠ 0`. -/

inductive TurnPhase
  | NONE
  | INITIATE_SPIN
  | SEARCHING_LINE
  | ADJUSTING_ON_LINE
deriving DecidableEq

structure TurnControllerState where
  current_phase : TurnPhase
  active_command : Option String
  phase_start_time : ℚ
deriving DecidableEq

def turnControllerInit : TurnControllerState :=
  { current_phase := .NONE, active_command := none, phase_start_time := 0 }

/-- `TurnController.initiate_turn` (lines 200-207). -/
def initiate_turn (st : TurnControllerState) (turn_direction : String)
    (current_time : ℚ) : TurnControllerState :=
  if st.active_command ≠ some turn_direction ∨ st.current_phase = .NONE then
    { active_command := some turn_direction, current_phase := .INITIATE_SPIN,
      phase_start_time := current_time }
  else st

/-- `TurnController._calculate_turn_speeds` (lines 289-297). -/
def calculate_turn_speeds (active_command : Option String)
    (inner_factor outer_factor : ℚ) : ℚ × ℚ :=
  let inner_speed := -FORWARD_SPEED * TURN_SPEED_FACTOR * inner_factor
  let outer_speed := FORWARD_SPEED * TURN_SPEED_FACTOR * outer_factor
  if active_command = some "turn_left" then (inner_speed, outer_speed)
  else (outer_speed, inner_speed)

/-- `TurnController._execute_initial_spin` (lines 223-231). -/
def execute_initial_spin (st : TurnControllerState) (current_time : ℚ) :
    TurnControllerState × (ℚ × ℚ) :=
  let spin_speeds := calculate_turn_speeds st.active_command 0.8 1.1
  if MIN_INITIAL_SPIN_DURATION < current_time - st.phase_start_time then
    ({ st with current_phase := .SEARCHING_LINE, phase_start_time := current_time },
      spin_speeds)
  else (st, spin_speeds)

/-- `TurnController._execute_line_search` (lines 233-245). -/
def execute_line_search (st : TurnControllerState) (ls : Nat × Nat × Nat)
    (current_time : ℚ) : TurnControllerState × (ℚ × ℚ) :=
  let search_speeds := calculate_turn_speeds st.active_command 0.5 0.9
  if ls.1 ≠ 0 ∨ ls.2.1 ≠ 0 ∨ ls.2.2 ≠ 0 then
    ({ st with current_phase := .ADJUSTING_ON_LINE, phase_start_time := current_time },
      search_speeds)
  else if ¬ TURN_UNTIL_LINE_FOUND ∧
      MAX_SEARCH_SPIN_DURATION < current_time - st.phase_start_time then
    ({ st with current_phase := .NONE }, (0, 0))
  else (st, search_speeds)

/-- `TurnController._execute_line_adjustment` (lines 247-287).  Every branch
of the sensor-pattern dispatch returns, so the timeout check the source
places after the chain (lines 283-287, `current_time - phase_start_time >
MAX_ADJUST_DURATION` forcing phase `NONE` and zero speed) is unreachable
dead code and has no executable counterpart here. -/
def execute_line_adjustment (st : TurnControllerState) (ls : Nat × Nat × Nat)
    (current_time : ℚ) : TurnControllerState × (ℚ × ℚ) :=
  let left_sensor := ls.1
  let center_sensor := ls.2.1
  let right_sensor := ls.2.2
  let base_speed := TURN_ADJUST_BASE_SPEED
  let moderate_diff := MODERATE_CORRECTION_DIFFERENTIAL * (base_speed / FORWARD_SPEED)
  let aggressive_diff := AGGRESSIVE_CORRECTION_DIFFERENTIAL * (base_speed / FORWARD_SPEED)
  if left_sensor = 0 ∧ center_sensor ≠ 0 ∧ right_sensor = 0 then
    ({ st with current_phase := .NONE, active_command := none },
      (base_speed * 0.3, base_speed * 0.3))
  else if left_sensor ≠ 0 ∧ center_sensor ≠ 0 ∧ right_sensor = 0 then
    (st, (base_speed - moderate_diff, base_speed))
  else if left_sensor = 0 ∧ center_sensor ≠ 0 ∧ right_sensor ≠ 0 then
    (st, (base_speed, base_speed - moderate_diff))
  else if left_sensor ≠ 0 ∧ center_sensor = 0 ∧ right_sensor = 0 then
    (st, (base_speed - aggressive_diff, base_speed))
  else if left_sensor = 0 ∧ center_sensor = 0 ∧ right_sensor ≠ 0 then
    (st, (base_speed, base_speed - aggressive_diff))
  else if left_sensor = 0 ∧ center_sensor = 0 ∧ right_sensor = 0 then
    ({ st with current_phase := .SEARCHING_LINE, phase_start_time := current_time },
      calculate_turn_speeds st.active_command 0.5 0.9)
  else
    (st, (base_speed * 0.7, base_speed * 0.7))

/-- `TurnController.execute_turn` (lines 209-221). -/
def execute_turn (st : TurnControllerState) (ls : Nat × Nat × Nat)
    (current_time : ℚ) : TurnControllerState × (ℚ × ℚ) :=
  match st.current_phase with
  | .INITIATE_SPIN => execute_initial_spin st current_time
  | .SEARCHING_LINE => execute_line_search st ls current_time
  | .ADJUSTING_ON_LINE => execute_line_adjustment st ls current_time
  | .NONE => (st, (0, 0))

/-- `TurnController.is_turning` (lines 299-301). -/
def is_turning (st : TurnControllerState) : Prop := st.current_phase ≠ .NONE

instance (st : TurnControllerState) : Decidable (is_turning st) :=
  inferInstanceAs (Decidable (st.current_phase ≠ .NONE))

/-- `TurnController.reset` (lines 303-306). -/
def resetTurn (st : TurnControllerState) : TurnControllerState :=
  { st with current_phase := .NONE, active_command := none }

/-! ## Effective command resolution (`the_sequel_bot.py.py`, lines 578-592) -/

def sensorsAny (ls : Nat × Nat × Nat) : Prop :=
  ls.1 ≠ 0 ∨ ls.2.1 ≠ 0 ∨ ls.2.2 ≠ 0

instance (ls : Nat × Nat × Nat) : Decidable (sensorsAny ls) :=
  inferInstanceAs (Decidable (ls.1 ≠ 0 ∨ ls.2.1 ≠ 0 ∨ ls.2.2 ≠ 0))

/-- The per-tick merge of the remote command with local turn state: the
`if turn_controller.is_turning() ... else ... effective_command = ...`
chain, including the reset performed in the stop-while-turning case.
`effective_command` is an `Option` because the turning branch reads
`turn_controller.active_command`. -/
def resolve_effective_command (tc : TurnControllerState) (esp32_command : String)
    (ld : Nat × Nat × Nat) : TurnControllerState × Option String :=
  if is_turning tc then
    if esp32_command = "stop" then (resetTurn tc, some "stop")
    else (tc, tc.active_command)
  else if sensorsAny ld ∧
      esp32_command ∉ (["turn_left", "turn_right", "stop"] : List String) then
    (tc, some "forward")
  else if ¬ sensorsAny ld ∧ esp32_command = "forward" then
    (tc, some "turn_left")
  else (tc, some esp32_command)

/-! ## `CoordinateConverter` and `ObstacleDetector`
(`the_sequel_bot.py.py`, lines 92-189)

`round` on floats is embedded as `round` on exact rationals; Python rounds
exact halves to even while Mathlib rounds them up, a difference only visible
on quotients that are exact half-integers, which none of the claims touch.
Headings are real-valued; `math.degrees(x) % 360` is `x·180/π - 360·⌊x·180/π/360⌋`. -/

def world_to_grid (world_x world_z : ℚ) : Int × Int :=
  let col := round ((world_x - GRID_ORIGIN_X) / GRID_CELL_SIZE)
  let row := round ((world_z - GRID_ORIGIN_Z) / GRID_CELL_SIZE)
  let col2 := max 0 (min col ((GRID_COLS : Int) - 1))
  let row2 := max 0 (min row ((GRID_ROWS : Int) - 1))
  (row2, col2)

def grid_to_world_center (row col : Int) : ℚ × ℚ :=
  (GRID_ORIGIN_X + col * GRID_CELL_SIZE, GRID_ORIGIN_Z + row * GRID_CELL_SIZE)

open scoped Classical in
/-- `ObstacleDetector._calculate_obstacle_position` (lines 152-174).  The
offset list is indexed by the sensor slot (front, front-left, front-right);
calls only use indices 0-2, so the `getD` default is never reached. -/
noncomputable def calculate_obstacle_position (robot_row robot_col : Int)
    (orientation : ℝ) (sensor_index : Nat) : Int × Int :=
  let deg := orientation * 180 / Real.pi
  let theta_degrees := deg - 360 * ⌊deg / 360⌋
  let offsets : List (Int × Int) :=
    if (-45 ≤ theta_degrees ∧ theta_degrees ≤ 45) ∨
        (315 ≤ theta_degrees ∧ theta_degrees ≤ 360) then
      [(0, 1), (-1, 1), (1, 1)]
    else if 45 < theta_degrees ∧ theta_degrees ≤ 135 then
      [(1, 0), (1, 1), (1, -1)]
    else if 135 < theta_degrees ∧ theta_degrees ≤ 225 then
      [(0, -1), (1, -1), (-1, -1)]
    else
      [(-1, 0), (-1, -1), (-1, 1)]
  let d := offsets.getD sensor_index (0, 0)
  (robot_row + d.1, robot_col + d.2)

/-- `ObstacleDetector._is_valid_position` (lines 176-179). -/
def is_valid_position (position : Int × Int) : Prop :=
  0 ≤ position.1 ∧ position.1 < (GRID_ROWS : Int) ∧
  0 ≤ position.2 ∧ position.2 < (GRID_COLS : Int)

instance (position : Int × Int) : Decidable (is_valid_position position) :=
  inferInstanceAs (Decidable (0 ≤ position.1 ∧ position.1 < (GRID_ROWS : Int) ∧
    0 ≤ position.2 ∧ position.2 < (GRID_COLS : Int)))

structure ObstacleDetectorState where
  detected_obstacles : List (Int × Int)
  recent_obstacles : List (Int × Int)

def obstacleDetectorInit : ObstacleDetectorState := ⟨[], []⟩

open scoped Classical in
/-- The `for sensor_index, distance_value in enumerate(distance_values)`
loop of `process_sensor_readings` (lines 140-148).  `detected_obstacles` is
a Python set; it is embedded as a list extended only under the very
`not in` guard the source checks, so membership coincides. -/
noncomputable def processReadingsLoop (row col : Int) (orientation : ℝ) :
    Nat → List ℚ → List (Int × Int) → List (Int × Int) →
    List (Int × Int) × List (Int × Int)
  | _, [], newObs, detected => (newObs, detected)
  | i, dv :: rest, newObs, detected =>
    if DISTANCE_SENSOR_THRESHOLD < dv then
      let pos := calculate_obstacle_position row col orientation i
      if is_valid_position pos ∧ pos ∉ detected then
        processReadingsLoop row col orientation (i + 1) rest (newObs ++ [pos])
          (pos :: detected)
      else processReadingsLoop row col orientation (i + 1) rest newObs detected
    else processReadingsLoop row col orientation (i + 1) rest newObs detected

open scoped Classical in
/-- `ObstacleDetector.process_sensor_readings` (lines 126-150). -/
noncomputable def process_sensor_readings (st : ObstacleDetectorState)
    (pose_x pose_z : ℚ) (robot_orientation : ℝ) (distance_values : List ℚ) :
    List (Int × Int) × ObstacleDetectorState :=
  if ¬ OBSTACLE_DETECTION_ENABLED then ([], st)
  else
    let rc := world_to_grid pose_x pose_z
    let r := processReadingsLoop rc.1 rc.2 robot_orientation 0 distance_values []
      st.detected_obstacles
    (r.1, { st with detected_obstacles := r.2 })

/-- `ObstacleDetector.get_recent_obstacles` (lines 181-185): returns and
clears the pending queue. -/
def get_recent_obstacles (st : ObstacleDetectorState) :
    List (Int × Int) × ObstacleDetectorState :=
  (st.recent_obstacles, { st with recent_obstacles := [] })

/-- `ObstacleDetector.add_recent_obstacles` (lines 187-189). -/
def add_recent_obstacles (st : ObstacleDetectorState)
    (obstacles : List (Int × Int)) : ObstacleDetectorState :=
  { st with recent_obstacles := st.recent_obstacles ++ obstacles }

/-- Proof-side harness: one status-period's sensor sample. -/
structure SensorInput where
  x : ℚ
  z : ℚ
  theta : ℝ
  dists : List ℚ

/-- Proof-side harness: the batches returned by a sequence of
`process_sensor_readings` calls on an evolving detector state. -/
noncomputable def runDetector :
    ObstacleDetectorState → List SensorInput →
    List (List (Int × Int)) × ObstacleDetectorState
  | st, [] => ([], st)
  | st, inp :: rest =>
    let r := process_sensor_readings st inp.x inp.z inp.theta inp.dists
    let r' := runDetector r.2 rest
    (r.1 :: r'.1, r'.2)

/-! ## Action translation on the planner (`Dijkstra.py`, lines 169-235)

`math.atan2 y x` is embedded as `Complex.arg (x + y·i)`, which satisfies the
same case analysis; `math.radians(40)` is `40·π/180`. -/

noncomputable def atan2 (y x : ℝ) : ℝ := Complex.arg (x + y * Complex.I)

noncomputable def ANGLE_THRESHOLD_RAD : ℝ := 40 * Real.pi / 180

/-- Python `list.index(x, start)`: the first index `≥ start` holding `x`,
or `None` standing for the `ValueError` the source catches. -/
def listIndexFrom (l : List Cell) (x : Cell) (start : Nat) : Option Nat :=
  match (l.drop start).findIdx? (fun c => c = x) with
  | some i => some (start + i)
  | none => none

open scoped Classical in
/-- The tail of `get_action_from_path` shared by the aligned and re-aligned
branches (lines 204-235): map the segment direction to a target heading,
normalize, compare against the threshold. -/
noncomputable def actionFromSegment (current_node_on_path next_node_on_path : Cell)
    (world_theta_rad : ℝ) : String :=
  let dr := next_node_on_path.1 - current_node_on_path.1
  let dc := next_node_on_path.2 - current_node_on_path.2
  let target : Option ℝ :=
    if dc = 1 ∧ dr = 0 then some 0
    else if dc = -1 ∧ dr = 0 then some Real.pi
    else if dr = 1 ∧ dc = 0 then some (Real.pi / 2)
    else if dr = -1 ∧ dc = 0 then some (-(Real.pi / 2))
    else none
  match target with
  | none => "stop"
  | some target_theta_rad =>
    let current_theta_norm := atan2 (Real.sin world_theta_rad) (Real.cos world_theta_rad)
    let angle_diff0 := target_theta_rad - current_theta_norm
    let angle_diff := atan2 (Real.sin angle_diff0) (Real.cos angle_diff0)
    if ANGLE_THRESHOLD_RAD < |angle_diff| then
      if 0 < angle_diff then "turn_left" else "turn_right"
    else "forward"

open scoped Classical in
/-- `get_action_from_path` (lines 169-235).  The function reads and mutates
the global `current_path_index`; the embedding threads it as the third
component of the result.  The second component is the returned
`current_node_on_path`/`robot_pos_on_path`.  Both sub-branches of the
out-of-range index check return `('stop', robot_pos_on_path)`, embedded as
one.  `getD` indexing is guarded by the corresponding range checks. -/
noncomputable def get_action_from_path (planned_path : List Cell)
    (current_path_index : Nat) (goal_grid_pos : Option Cell)
    (robot_pos_on_path : Option Cell) (world_theta_rad : ℝ)
    (_webots_line_sensors : List Nat) : String × Option Cell × Nat :=
  if planned_path = [] ∨ robot_pos_on_path = none then
    ("stop", robot_pos_on_path, current_path_index)
  else
    match robot_pos_on_path with
    | none => ("stop", none, current_path_index)
    | some pos =>
      if some pos = goal_grid_pos then ("stop", some pos, current_path_index)
      else if ¬ ((current_path_index : Int) < (planned_path.length : Int) - 1) then
        ("stop", some pos, current_path_index)
      else
        let current_node_on_path := planned_path.getD current_path_index (0, 0)
        let next_node_on_path := planned_path.getD (current_path_index + 1) (0, 0)
        if pos ≠ current_node_on_path then
          match listIndexFrom planned_path pos current_path_index with
          | none => ("stop", some pos, current_path_index)
          | some j =>
            if ((planned_path.length : Int)) - 1 ≤ (j : Int) then ("stop", some pos, j)
            else
              (actionFromSegment (planned_path.getD j (0, 0))
                  (planned_path.getD (j + 1) (0, 0)) world_theta_rad,
                some (planned_path.getD j (0, 0)), j)
        else
          (actionFromSegment current_node_on_path next_node_on_path world_theta_rad,
            some current_node_on_path, current_path_index)

/-! ## The planning-side message loop (`Dijkstra.py`, lines 239-435)

The module-level mutable globals are bundled into a state record and the
`webots_status` handler is a state-transition function.  `time.ticks_diff`
is embedded as integer subtraction. -/

def REPLAN_INTERVAL_MS : Int := 1000

structure ServerState where
  current_robot_grid_pos_actual : Option Cell
  current_robot_grid_pos_path : Option Cell
  goal_grid_pos : Option Cell
  planned_path : List Cell
  current_path_index : Nat
  path_needs_replan : Bool
  last_replan_time : Int
deriving DecidableEq

/-- Initial values of the globals (lines 43-49). -/
def initialServerState : ServerState :=
  { current_robot_grid_pos_actual := none, current_robot_grid_pos_path := none,
    goal_grid_pos := none, planned_path := [], current_path_index := 0,
    path_needs_replan := true, last_replan_time := 0 }

structure StatusMsg where
  robot_grid_pos : Cell
  goal_grid_pos : Cell
  theta_rad : ℝ
  sensors_binary : List Nat

structure CommandMsg where
  action : String
  path : List Cell
  robot_pos_on_path_esp_thinks : Option Cell
  current_path_idx_esp : Nat
deriving DecidableEq

/-- Lines 300-307 (robot moved): record the new actual position and flag a
replan if it deviates from the tracked path position by more than one cell
in a row or column.  The deviation test reads the pre-update path position,
whose value is guarded by the truthiness check, so the `getD` default is
never read. -/
def updateActualCore (s : ServerState) (m : StatusMsg) : ServerState :=
  if s.current_robot_grid_pos_path ≠ none ∧
      (1 < |m.robot_grid_pos.1 - (s.current_robot_grid_pos_path.getD (0, 0)).1| ∨
       1 < |m.robot_grid_pos.2 - (s.current_robot_grid_pos_path.getD (0, 0)).2|) then
    { s with
      current_robot_grid_pos_actual := some m.robot_grid_pos
      path_needs_replan := true }
  else { s with current_robot_grid_pos_actual := some m.robot_grid_pos }

/-- Lines 310-311 and line 321: adopt the reported position as path position
when none is tracked yet. -/
def fillPathPos (s : ServerState) (m : StatusMsg) : ServerState :=
  if s.current_robot_grid_pos_path = none then
    { s with current_robot_grid_pos_path := some m.robot_grid_pos }
  else s

/-- Lines 299-311. -/
def updateActual (s : ServerState) (m : StatusMsg) : ServerState :=
  if some m.robot_grid_pos ≠ s.current_robot_grid_pos_actual then
    fillPathPos (updateActualCore s m) m
  else s

/-- Lines 314-317. -/
def updateGoal (s : ServerState) (m : StatusMsg) : ServerState :=
  if some m.goal_grid_pos ≠ s.goal_grid_pos then
    { s with goal_grid_pos := some m.goal_grid_pos, path_needs_replan := true }
  else s

/-- Line 320. -/
def fillActual (s : ServerState) (m : StatusMsg) : ServerState :=
  if s.current_robot_grid_pos_actual = none then
    { s with current_robot_grid_pos_actual := some m.robot_grid_pos }
  else s

/-- Line 322. -/
def fillGoal (s : ServerState) (m : StatusMsg) : ServerState :=
  if s.goal_grid_pos = none then
    { s with goal_grid_pos := some m.goal_grid_pos, path_needs_replan := true }
  else s

/-- Lines 299-322: update the position/goal belief from the status message,
in source order. -/
def updateBelief (s : ServerState) (m : StatusMsg) : ServerState :=
  fillGoal (fillPathPos (fillActual (updateGoal (updateActual s m) m) m) m) m

/-- Lines 325-360: the replanning block.  The returned flag records whether
the replanning branch ran.  On an empty `dijkstra` result the source clears
`planned_path` and re-arms `path_needs_replan` (lines 355-358). -/
def maybeReplan (now : Int) (s : ServerState) : ServerState × Bool :=
  if s.path_needs_replan ∨ REPLAN_INTERVAL_MS < now - s.last_replan_time then
    match s.current_robot_grid_pos_actual, s.goal_grid_pos with
    | some actual, some goal =>
      let new_path := dijkstra grid_map actual goal
      if new_path ≠ [] then
        let s1 := { s with planned_path := new_path, current_path_index := 0 }
        let s2 :=
          if new_path.head? = some actual then
            { s1 with current_robot_grid_pos_path := new_path.head? }
          else
            match listIndexFrom new_path actual 0 with
            | some i =>
              { s1 with
                current_path_index := i
                current_robot_grid_pos_path := some actual }
            | none =>
              { s1 with
                current_robot_grid_pos_path := new_path.head?
                current_path_index := 0 }
        ({ s2 with path_needs_replan := false, last_replan_time := now }, true)
      else
        ({ s with planned_path := [], path_needs_replan := true }, true)
    | _, _ => (s, true)
  else (s, false)

open scoped Classical in
/-- Lines 362-399: derive the action (threading the index mutation of
`get_action_from_path`) and run the confirmed-arrival advancement block. -/
noncomputable def computeAction (s : ServerState) (m : StatusMsg) :
    ServerState × String :=
  if s.planned_path ≠ [] ∧ s.current_robot_grid_pos_path ≠ none ∧
      s.goal_grid_pos ≠ none then
    let r := get_action_from_path s.planned_path s.current_path_index
      s.goal_grid_pos s.current_robot_grid_pos_path m.theta_rad m.sensors_binary
    let action := r.1
    let s1 := { s with current_path_index := r.2.2 }
    if s1.current_robot_grid_pos_actual = s1.current_robot_grid_pos_path then
      if action = "forward" ∧
          (s1.current_path_index : Int) < (s1.planned_path.length : Int) - 1 then
        if (s1.current_path_index : Int) < (s1.planned_path.length : Int) - 1 then
          let prospective := s1.planned_path.getD (s1.current_path_index + 1) (0, 0)
          if s1.current_robot_grid_pos_actual = some prospective then
            ({ s1 with
                current_path_index := s1.current_path_index + 1
                current_robot_grid_pos_path := some prospective }, action)
          else (s1, action)
        else (s1, action)
      else (s1, action)
    else (s1, action)
  else (s, "stop")

/-- Lines 402-407: the goal-reached override. -/
def goalOverride (s : ServerState) (action : String) : ServerState × String :=
  if s.current_robot_grid_pos_actual = s.goal_grid_pos then
    ({ s with planned_path := [], path_needs_replan := false }, "stop")
  else (s, action)

/-- Lines 409-418: the command sent back to Webots. -/
def buildCommand (s : ServerState) (action : String) : CommandMsg :=
  { action := action, path := s.planned_path,
    robot_pos_on_path_esp_thinks := s.current_robot_grid_pos_path,
    current_path_idx_esp := s.current_path_index }

open scoped Classical in
/-- One full `webots_status` message processed (lines 291-418): belief
update, optional replanning, action derivation with cursor advancement,
goal-reached override, outgoing command.  The last component records whether
the replanning branch ran. -/
noncomputable def processStatus (now : Int) (s : ServerState) (m : StatusMsg) :
    ServerState × CommandMsg × Bool :=
  let s1 := updateBelief s m
  let r2 := maybeReplan now s1
  let r3 := computeAction r2.1 m
  let r4 := goalOverride r3.1 r3.2
  (r4.1, buildCommand r4.1 r4.2, r2.2)

/-- Lines 425-435: graceful disconnect (empty read): session belief reset,
goal retained (the source comments the goal reset out), path cleared and a
replan forced; `current_path_index` and `last_replan_time` untouched. -/
def handleDisconnect (s : ServerState) : ServerState :=
  { s with
    current_robot_grid_pos_actual := none
    current_robot_grid_pos_path := none
    planned_path := []
    path_needs_replan := true }

/-- Proof-side invariant of the tracker: on a nonempty path, the cursor is in
range and points at the tracked path position. -/
def PathConsistent (s : ServerState) : Prop :=
  s.planned_path ≠ [] →
    s.current_path_index < s.planned_path.length ∧
    s.current_robot_grid_pos_path = s.planned_path[s.current_path_index]?

/-- Spec-side (claim C8) angular error: the atan2-normalized difference
between the target heading and theta. -/
noncomputable def c8Error (target θ : ℝ) : ℝ :=
  atan2 (Real.sin (target - θ)) (Real.cos (target - θ))

open scoped Classical in
/-- Spec-side (claim C8) action rule, written from the claim's words: fixed
target-heading table, atan2-normalized error, threshold dispatch. -/
noncomputable def c8SpecAction (dr dc : Int) (θ : ℝ) : String :=
  let target : ℝ :=
    if dc = 1 ∧ dr = 0 then 0
    else if dc = -1 ∧ dr = 0 then Real.pi
    else if dr = 1 ∧ dc = 0 then Real.pi / 2
    else -(Real.pi / 2)
  let e := c8Error target θ
  if ANGLE_THRESHOLD_RAD < |e| then
    if 0 < e then "turn_left" else "turn_right"
  else "forward"

/-! # Theorems

## Association list and priority queue basics -/

theorem alookup_aset_self {α : Type} (m : List (Cell × α)) (k : Cell) (v : α) :
    alookup (aset m k v) k = some v := by
  induction m with
  | nil => simp [aset, alookup]
  | cons e rest ih =>
    obtain ⟨k', v'⟩ := e
    by_cases h : k = k'
    · simp [aset, h, alookup]
    · simp [aset, h, alookup, ih]

theorem alookup_aset_ne {α : Type} (m : List (Cell × α)) (k k' : Cell) (v : α)
    (h : k' ≠ k) : alookup (aset m k v) k' = alookup m k' := by
  induction m with
  | nil => simp [aset, alookup, h]
  | cons e rest ih =>
    obtain ⟨k₀, v₀⟩ := e
    by_cases hk : k = k₀
    · subst hk
      simp [aset, alookup, h]
    · by_cases hk' : k' = k₀ <;> simp [aset, alookup, hk, hk', ih]

theorem aset_keys_sub {α : Type} (m : List (Cell × α)) (k : Cell) (v : α) :
    ∀ x ∈ (aset m k v).map Prod.fst, x ∈ m.map Prod.fst ∨ x = k := by
  induction m with
  | nil => simp [aset]
  | cons e rest ih =>
    obtain ⟨k₀, v₀⟩ := e
    by_cases hk : k = k₀
    · subst hk
      intro x hx
      simp only [aset, if_true, eq_self_iff_true, List.map_cons, List.mem_cons] at hx
      simp only [List.map_cons, List.mem_cons]
      tauto
    · intro x hx
      simp only [aset, if_neg hk, List.map_cons, List.mem_cons] at hx ⊢
      rcases hx with h | h
      · exact Or.inl (Or.inl h)
      · rcases ih x h with h' | h'
        · exact Or.inl (Or.inr h')
        · exact Or.inr h'

theorem aset_keys_nodup {α : Type} (m : List (Cell × α)) (k : Cell) (v : α)
    (h : (m.map Prod.fst).Nodup) : ((aset m k v).map Prod.fst).Nodup := by
  induction m with
  | nil => simp [aset]
  | cons e rest ih =>
    obtain ⟨k₀, v₀⟩ := e
    simp only [List.map_cons, List.nodup_cons] at h
    by_cases hk : k = k₀
    · subst hk
      simpa [aset] using h
    · simp only [aset, if_neg hk, List.map_cons, List.nodup_cons]
      refine ⟨fun hmem => ?_, ih h.2⟩
      rcases aset_keys_sub rest k v k₀ hmem with h' | h'
      · exact h.1 h'
      · exact hk h'.symm

theorem aset_length_none {α : Type} (m : List (Cell × α)) (k : Cell) (v : α)
    (h : alookup m k = none) : (aset m k v).length = m.length + 1 := by
  induction m with
  | nil => simp [aset]
  | cons e rest ih =>
    obtain ⟨k₀, v₀⟩ := e
    by_cases hk : k = k₀
    · simp [alookup, hk] at h
    · simp only [alookup, if_neg hk] at h
      simp [aset, if_neg hk, ih h]

theorem aset_length_some {α : Type} (m : List (Cell × α)) (k : Cell) (v w : α)
    (h : alookup m k = some w) : (aset m k v).length = m.length := by
  induction m with
  | nil => simp [alookup] at h
  | cons e rest ih =>
    obtain ⟨k₀, v₀⟩ := e
    by_cases hk : k = k₀
    · simp [aset, hk]
    · simp only [alookup, if_neg hk] at h
      simp [aset, if_neg hk, ih h]

theorem aset_sum_none (m : List (Cell × Nat)) (k : Cell) (v : Nat)
    (h : alookup m k = none) :
    ((aset m k v).map Prod.snd).sum = (m.map Prod.snd).sum + v := by
  induction m with
  | nil => simp [aset]
  | cons e rest ih =>
    obtain ⟨k₀, v₀⟩ := e
    by_cases hk : k = k₀
    · simp [alookup, hk] at h
    · simp only [alookup, if_neg hk] at h
      simp only [aset, if_neg hk, List.map_cons, List.sum_cons, ih h]
      omega

theorem aset_sum_some (m : List (Cell × Nat)) (k : Cell) (v w : Nat)
    (h : alookup m k = some w) :
    ((aset m k v).map Prod.snd).sum + w = (m.map Prod.snd).sum + v := by
  induction m with
  | nil => simp [alookup] at h
  | cons e rest ih =>
    obtain ⟨k₀, v₀⟩ := e
    by_cases hk : k = k₀
    · subst hk
      have hw : v₀ = w := by simpa [alookup] using h
      subst hw
      simp only [aset, if_true, eq_self_iff_true, List.map_cons, List.sum_cons]
      omega
    · simp only [alookup, if_neg hk] at h
      simp only [aset, if_neg hk, List.map_cons, List.sum_cons]
      have := ih h
      omega

theorem mem_pqPut (q : List (Cell × Nat)) (item : Cell) (p : Nat) (e : Cell × Nat) :
    e ∈ pqPut q item p ↔ e ∈ q ∨ e = (item, p) := by
  induction q with
  | nil => simp [pqPut]
  | cons f rest ih =>
    by_cases h : f.2 ≤ p
    · simp only [pqPut, if_pos h, List.mem_cons, ih]
      tauto
    · simp only [pqPut, if_neg h, List.mem_cons]
      tauto

theorem pqPut_sorted (q : List (Cell × Nat)) (item : Cell) (p : Nat)
    (h : q.Pairwise (fun a b => a.2 ≤ b.2)) :
    (pqPut q item p).Pairwise (fun a b => a.2 ≤ b.2) := by
  induction q with
  | nil => simp [pqPut]
  | cons f rest ih =>
    rcases List.pairwise_cons.mp h with ⟨hf, hrest⟩
    by_cases hle : f.2 ≤ p
    · simp only [pqPut, if_pos hle]
      refine List.pairwise_cons.mpr ⟨?_, ih hrest⟩
      intro x hx
      rcases (mem_pqPut rest item p x).mp hx with h' | h'
      · exact hf x h'
      · subst h'; exact hle
    · simp only [pqPut, if_neg hle]
      refine List.pairwise_cons.mpr ⟨?_, h⟩
      intro x hx
      rcases List.mem_cons.mp hx with h' | h'
      · subst h'; omega
      · exact le_trans (by omega) (hf x h')

theorem pqPut_length (q : List (Cell × Nat)) (item : Cell) (p : Nat) :
    (pqPut q item p).length = q.length + 1 := by
  induction q with
  | nil => simp [pqPut]
  | cons f rest ih =>
    by_cases h : f.2 ≤ p <;> simp [pqPut, h, ih]

theorem alookup_mem {α : Type} (m : List (Cell × α)) (k : Cell) (v : α)
    (h : alookup m k = some v) : (k, v) ∈ m := by
  induction m with
  | nil => simp [alookup] at h
  | cons e rest ih =>
    obtain ⟨k₀, v₀⟩ := e
    by_cases hk : k = k₀
    · subst hk
      have : v₀ = v := by simpa [alookup] using h
      subst this
      exact List.mem_cons_self _ _
    · simp only [alookup, if_neg hk] at h
      exact List.mem_cons_of_mem _ (ih h)

theorem alookup_eq_none {α : Type} (m : List (Cell × α)) (k : Cell) :
    alookup m k = none ↔ k ∉ m.map Prod.fst := by
  induction m with
  | nil => simp [alookup]
  | cons e rest ih =>
    obtain ⟨k₀, v₀⟩ := e
    by_cases hk : k = k₀
    · subst hk; simp [alookup]
    · simp [alookup, hk, ih]

/-! ## Characterizing `get_valid_neighbors` -/

theorem mem_neighbors_iff (r c : Int) (rows cols : Nat) (grid : List (List Nat))
    (p : Cell) (w : Nat) :
    (p, w) ∈ get_valid_neighbors r c rows cols grid ↔
      w = 1 ∧ cellOk grid rows cols p.1 p.2 ∧
        (p = (r, c + 1) ∨ p = (r, c - 1) ∨ p = (r + 1, c) ∨ p = (r - 1, c)) := by
  constructor
  · intro h
    simp only [get_valid_neighbors, neighborOffsets, List.mem_filterMap,
      List.mem_cons, List.not_mem_nil, or_false] at h
    obtain ⟨d, hd, hif⟩ := h
    by_cases hc : cellOk grid rows cols (r + d.1) (c + d.2)
    · rw [if_pos hc] at hif
      have hp : p = (r + d.1, c + d.2) ∧ w = 1 := by
        have := Option.some.inj hif
        exact ⟨(congrArg Prod.fst this).symm, (congrArg Prod.snd this).symm⟩
      obtain ⟨hp, hw⟩ := hp
      subst hp
      refine ⟨hw, hc, ?_⟩
      rcases hd with h' | h' | h' | h' <;> subst h' <;>
        simp [sub_eq_add_neg]
    · rw [if_neg hc] at hif
      exact absurd hif (by simp)
  · rintro ⟨hw, hc, hp⟩
    subst hw
    simp only [get_valid_neighbors, neighborOffsets, List.mem_filterMap,
      List.mem_cons, List.not_mem_nil, or_false]
    rcases hp with h' | h' | h' | h'
    · exact ⟨(0, 1), by simp, by
        rw [if_pos (by simpa [h', sub_eq_add_neg] using hc)]; simp [h', sub_eq_add_neg]⟩
    · exact ⟨(0, -1), by simp, by
        rw [if_pos (by simpa [h', sub_eq_add_neg] using hc)]; simp [h', sub_eq_add_neg]⟩
    · exact ⟨(1, 0), by simp, by
        rw [if_pos (by simpa [h', sub_eq_add_neg] using hc)]; simp [h', sub_eq_add_neg]⟩
    · exact ⟨(-1, 0), by simp, by
        rw [if_pos (by simpa [h', sub_eq_add_neg] using hc)]; simp [h', sub_eq_add_neg]⟩

theorem mem_neighbors_elim (r c : Int) (rows cols : Nat) (grid : List (List Nat))
    (nb : Cell × Nat) (h : nb ∈ get_valid_neighbors r c rows cols grid) :
    nb.2 = 1 ∧ cellOk grid rows cols nb.1.1 nb.1.2 ∧ nb.1 ≠ (r, c) ∧
      IsStep rows cols grid (r, c) nb.1 := by
  obtain ⟨p, w⟩ := nb
  rw [mem_neighbors_iff] at h
  obtain ⟨hw, hc, hp⟩ := h
  refine ⟨hw, hc, ?_, ?_⟩
  · rcases hp with h' | h' | h' | h' <;> subst h' <;>
      simp only [ne_eq, Prod.mk.injEq, not_and] <;> intros <;> omega
  · exact (mem_neighbors_iff r c rows cols grid p 1).mpr ⟨rfl, hc, hp⟩

theorem isStep_cellOk {rows cols : Nat} {grid : List (List Nat)} {a b : Cell}
    (h : IsStep rows cols grid a b) : cellOk grid rows cols b.1 b.2 :=
  ((mem_neighbors_iff a.1 a.2 rows cols grid b 1).mp h).2.1

theorem isStep_unitStep {rows cols : Nat} {grid : List (List Nat)} {a b : Cell}
    (h : IsStep rows cols grid a b) : UnitStep a b := by
  have := ((mem_neighbors_iff a.1 a.2 rows cols grid b 1).mp h).2.2
  rcases this with h' | h' | h' | h' <;> subst h' <;> simp [UnitStep]

/-! ## The relaxation step -/

/-- `relax` either leaves the state unchanged (the neighbor is already at
least as cheap) or rewrites cost, parent and queue with the new cost. -/
theorem relax_cases {cur : Cell} {s : DState} {dcur : Nat} {nb : Cell × Nat}
    (hdcur : alookup s.cost cur = some dcur) :
    (relax cur s nb = s ∧ ∃ old, alookup s.cost nb.1 = some old ∧ old ≤ dcur + nb.2) ∨
    (relax cur s nb = ⟨pqPut s.queue nb.1 (dcur + nb.2), aset s.cost nb.1 (dcur + nb.2),
        aset s.came nb.1 (some cur)⟩ ∧
      ∀ old, alookup s.cost nb.1 = some old → dcur + nb.2 < old) := by
  cases hl : alookup s.cost nb.1 with
  | none =>
    right
    refine ⟨?_, ?_⟩
    · simp only [relax, hdcur, hl, Option.getD_some]
    · intro old hold
      exact Option.noConfusion hold
  | some old =>
    by_cases hlt : dcur + nb.2 < old
    · right
      refine ⟨?_, ?_⟩
      · simp only [relax, hdcur, hl, Option.getD_some, if_pos hlt]
      · intro o ho
        have ho' : old = o := Option.some.inj ho
        omega
    · left
      constructor
      · simp only [relax, hdcur, hl, Option.getD_some, if_neg hlt]
      · refine ⟨old, rfl, ?_⟩
        omega

theorem Reach.snocStep {rows cols : Nat} {grid : List (List Nat)} {a b c : Cell}
    (h : Reach rows cols grid a b) (hs : IsStep rows cols grid b c) :
    Reach rows cols grid a c := by
  obtain ⟨n, hp⟩ := h
  exact ⟨n + 1, hp.snoc hs⟩

/-- Distinct in-bounds keys: the cost table never exceeds `rows * cols`
entries. -/
theorem cost_length_le {rows cols : Nat} {grid : List (List Nat)} {start : Cell}
    {s : DState} (hcore : DCore rows cols grid start s) :
    s.cost.length ≤ rows * cols := by
  have hlen : s.cost.length = (s.cost.map Prod.fst).length := by
    rw [List.length_map]
  rw [hlen]
  have hsub : (s.cost.map Prod.fst).toFinset ⊆
      (Finset.Icc (0 : Int) ((rows : Int) - 1)) ×ˢ
        (Finset.Icc (0 : Int) ((cols : Int) - 1)) := by
    intro x hx
    rw [List.mem_toFinset] at hx
    have hne : alookup s.cost x ≠ none := fun h =>
      ((alookup_eq_none s.cost x).mp h) hx
    cases h : alookup s.cost x with
    | none => exact absurd h hne
    | some k =>
      have hok := hcore.costOk x k h
      obtain ⟨h1, h2, h3, h4, _⟩ := hok
      rw [Finset.mem_product, Finset.mem_Icc, Finset.mem_Icc]
      constructor <;> constructor <;> omega
  calc (s.cost.map Prod.fst).length
      = (s.cost.map Prod.fst).toFinset.card :=
        (List.toFinset_card_of_nodup hcore.keysNodup).symm
    _ ≤ ((Finset.Icc (0 : Int) ((rows : Int) - 1)) ×ˢ
          (Finset.Icc (0 : Int) ((cols : Int) - 1))).card := Finset.card_le_card hsub
    _ = rows * cols := by
        rw [Finset.card_product, Int.card_Icc, Int.card_Icc]
        have h1 : ((rows : Int) - 1 + 1 - 0) = (rows : Int) := by ring
        have h2 : ((cols : Int) - 1 + 1 - 0) = (cols : Int) := by ring
        rw [h1, h2]
        simp

/-- Everything `relax` preserves or establishes, in one bundle: the core
invariant, the weakened expansion property, the unchanged cost of the node
being expanded, monotonicity of costs, queue membership, the relaxation
bound for the processed neighbor, pending-goal preservation, and the
termination measure. -/
theorem relax_preserves {rows cols : Nat} {grid : List (List Nat)} {start cur : Cell}
    {s : DState} {dcur : Nat} {nb : Cell × Nat}
    (hcore : DCore rows cols grid start s)
    (hexp : ExpandedBut rows cols grid cur s)
    (hnb : nb ∈ get_valid_neighbors cur.1 cur.2 rows cols grid)
    (hdcur : alookup s.cost cur = some dcur) :
    DCore rows cols grid start (relax cur s nb) ∧
    ExpandedBut rows cols grid cur (relax cur s nb) ∧
    alookup (relax cur s nb).cost cur = some dcur ∧
    (∀ v k, alookup s.cost v = some k →
      ∃ k', alookup (relax cur s nb).cost v = some k' ∧ k' ≤ k) ∧
    (∀ e ∈ s.queue, e ∈ (relax cur s nb).queue) ∧
    (∃ j, alookup (relax cur s nb).cost nb.1 = some j ∧ j ≤ dcur + nb.2) ∧
    (∀ endNode, EndPending endNode s → EndPending endNode (relax cur s nb)) ∧
    dMeasure (rows * cols) (relax cur s nb) ≤ dMeasure (rows * cols) s := by
  obtain ⟨hw1, hcell, hne, hstep⟩ := mem_neighbors_elim cur.1 cur.2 rows cols grid nb hnb
  have hstep' : IsStep rows cols grid cur nb.1 := hstep
  have hnbcur : nb.1 ≠ cur := by simpa using hne
  have hcurnb : cur ≠ nb.1 := fun h => hnbcur h.symm
  rcases @relax_cases cur s dcur nb hdcur with ⟨heq, old, hold, holdle⟩ | ⟨heq, hbig⟩
  · rw [heq]
    exact ⟨hcore, hexp, hdcur, fun v k hk => ⟨k, hk, le_refl k⟩,
      fun e he => he, ⟨old, hold, holdle⟩, fun endNode h => h, le_refl _⟩
  · rw [heq]
    set nc := dcur + nb.2 with hnc
    have hnbstart : nb.1 ≠ start := by
      intro h
      have h0 := hcore.startCost
      rw [← h] at h0
      have := hbig 0 h0
      omega
    have hstartnb : start ≠ nb.1 := fun h => hnbstart h.symm
    have lookNb : alookup (aset s.cost nb.1 nc) nb.1 = some nc :=
      alookup_aset_self s.cost nb.1 nc
    have lookOther : ∀ v, v ≠ nb.1 → alookup (aset s.cost nb.1 nc) v = alookup s.cost v :=
      fun v hv => alookup_aset_ne s.cost nb.1 v nc hv
    have lookCameNb : alookup (aset s.came nb.1 (some cur)) nb.1 = some (some cur) :=
      alookup_aset_self s.came nb.1 (some cur)
    have lookCameOther : ∀ v, v ≠ nb.1 →
        alookup (aset s.came nb.1 (some cur)) v = alookup s.came v :=
      fun v hv => alookup_aset_ne s.came nb.1 v (some cur) hv
    have mono4 : ∀ v k, alookup s.cost v = some k →
        ∃ k', alookup (aset s.cost nb.1 nc) v = some k' ∧ k' ≤ k := by
      intro v k hk
      by_cases hv : v = nb.1
      · subst hv
        exact ⟨nc, lookNb, le_of_lt (hbig k hk)⟩
      · exact ⟨k, by rw [lookOther v hv]; exact hk, le_refl k⟩
    have hcore' : DCore rows cols grid start
        ⟨pqPut s.queue nb.1 nc, aset s.cost nb.1 nc, aset s.came nb.1 (some cur)⟩ := by
      refine ⟨?_, ?_, ?_, ?_, ?_, ?_, ?_, ?_, ?_, ?_⟩
      · exact pqPut_sorted s.queue nb.1 nc hcore.sorted
      · intro e he
        rcases (mem_pqPut s.queue nb.1 nc e).mp he with he' | he'
        · obtain ⟨k, hk, hke⟩ := hcore.qmem e he'
          by_cases hv : e.1 = nb.1
          · rw [hv] at hk
            exact ⟨nc, by rw [hv]; exact lookNb, le_trans (le_of_lt (hbig k hk)) hke⟩
          · exact ⟨k, by rw [lookOther e.1 hv]; exact hk, hke⟩
        · subst he'
          exact ⟨nc, lookNb, le_refl nc⟩
      · rw [lookOther start hstartnb]
        exact hcore.startCost
      · rw [lookCameOther start hstartnb]
        exact hcore.startCame
      · intro v u hvu
        by_cases hv : v = nb.1
        · subst hv
          have hu : u = cur := by
            rw [lookCameNb] at hvu
            exact (Option.some.inj (Option.some.inj hvu)).symm
          rw [hu]
          refine ⟨hstep', dcur, nc, ?_, lookNb, ?_⟩
          · rw [lookOther cur hcurnb]; exact hdcur
          · omega
        · rw [lookCameOther v hv] at hvu
          obtain ⟨hs0, j, k, hju, hkv, hjk⟩ := hcore.cameOk v u hvu
          refine ⟨hs0, ?_⟩
          by_cases hu : u = nb.1
          · subst hu
            have := hbig j hju
            exact ⟨nc, k, lookNb, by rw [lookOther v hv]; exact hkv, by omega⟩
          · exact ⟨j, k, by rw [lookOther u hu]; exact hju,
              by rw [lookOther v hv]; exact hkv, hjk⟩
      · intro v k hk hvs
        by_cases hv : v = nb.1
        · subst hv
          exact ⟨cur, lookCameNb⟩
        · rw [lookOther v hv] at hk
          obtain ⟨u, hu⟩ := hcore.cameTotal v k hk hvs
          exact ⟨u, by rw [lookCameOther v hv]; exact hu⟩
      · intro v k hk
        by_cases hv : v = nb.1
        · subst hv
          exact hcell
        · rw [lookOther v hv] at hk
          exact hcore.costOk v k hk
      · intro v k hk
        by_cases hv : v = nb.1
        · subst hv
          exact (hcore.reachesIt cur dcur hdcur).snocStep hstep'
        · rw [lookOther v hv] at hk
          exact hcore.reachesIt v k hk
      · exact aset_keys_nodup s.cost nb.1 nc hcore.keysNodup
      · intro v k hk
        have hdl : dcur + 1 ≤ s.cost.length := hcore.bounded cur dcur hdcur
        cases hl0 : alookup s.cost nb.1 with
        | none =>
          have hlen : (aset s.cost nb.1 nc).length = s.cost.length + 1 :=
            aset_length_none s.cost nb.1 nc hl0
          rw [hlen]
          by_cases hv : v = nb.1
          · subst hv
            rw [lookNb] at hk
            have : k = nc := (Option.some.inj hk).symm
            omega
          · rw [lookOther v hv] at hk
            have := hcore.bounded v k hk
            omega
        | some o =>
          have hlen : (aset s.cost nb.1 nc).length = s.cost.length :=
            aset_length_some s.cost nb.1 nc o hl0
          rw [hlen]
          by_cases hv : v = nb.1
          · subst hv
            rw [lookNb] at hk
            have hkeq : k = nc := (Option.some.inj hk).symm
            have hno := hbig o hl0
            have hb := hcore.bounded nb.1 o hl0
            omega
          · rw [lookOther v hv] at hk
            exact hcore.bounded v k hk
    refine ⟨hcore', ?_, ?_, mono4, ?_, ?_, ?_, ?_⟩
    · -- ExpandedBut
      intro v k hk
      by_cases hv : v = nb.1
      · subst hv
        rw [lookNb] at hk
        have : k = nc := (Option.some.inj hk).symm
        subst this
        exact Or.inl ((mem_pqPut s.queue nb.1 nc (nb.1, nc)).mpr (Or.inr rfl))
      · rw [lookOther v hv] at hk
        rcases hexp v k hk with h | h | h
        · exact Or.inl ((mem_pqPut s.queue nb.1 nc (v, k)).mpr (Or.inl h))
        · exact Or.inr (Or.inl h)
        · refine Or.inr (Or.inr ?_)
          intro nb' hnb'
          obtain ⟨j, hj, hjle⟩ := h nb' hnb'
          obtain ⟨j', hj', hj'le⟩ := mono4 nb'.1 j hj
          exact ⟨j', hj', le_trans hj'le hjle⟩
    · rw [show (⟨pqPut s.queue nb.1 nc, aset s.cost nb.1 nc,
          aset s.came nb.1 (some cur)⟩ : DState).cost = aset s.cost nb.1 nc from rfl,
        lookOther cur hcurnb]
      exact hdcur
    · intro e he
      exact (mem_pqPut s.queue nb.1 nc e).mpr (Or.inl he)
    · exact ⟨nc, lookNb, le_refl nc⟩
    · intro endNode h
      rcases h with hnone | ⟨e, he, he1⟩
      · by_cases he : endNode = nb.1
        · exact Or.inr ⟨(nb.1, nc), (mem_pqPut s.queue nb.1 nc _).mpr (Or.inr rfl), he.symm⟩
        · exact Or.inl (by rw [show (⟨pqPut s.queue nb.1 nc, aset s.cost nb.1 nc,
            aset s.came nb.1 (some cur)⟩ : DState).cost = aset s.cost nb.1 nc from rfl,
            lookOther endNode he]; exact hnone)
      · exact Or.inr ⟨e, (mem_pqPut s.queue nb.1 nc e).mpr (Or.inl he), he1⟩
    · -- measure
      have hqlen : (pqPut s.queue nb.1 nc).length = s.queue.length + 1 :=
        pqPut_length s.queue nb.1 nc
      have hdl : dcur + 1 ≤ s.cost.length := hcore.bounded cur dcur hdcur
      cases hl0 : alookup s.cost nb.1 with
      | none =>
        have hlen : (aset s.cost nb.1 nc).length = s.cost.length + 1 :=
          aset_length_none s.cost nb.1 nc hl0
        have hsum : ((aset s.cost nb.1 nc).map Prod.snd).sum
            = (s.cost.map Prod.snd).sum + nc := aset_sum_none s.cost nb.1 nc hl0
        have hLC : s.cost.length + 1 ≤ rows * cols := by
          have := cost_length_le hcore'
          simpa [hlen] using this
        simp only [dMeasure, costPhi, hqlen, hlen, hsum]
        have hx : rows * cols - s.cost.length
            = (rows * cols - (s.cost.length + 1)) + 1 := by omega
        have hmul : (rows * cols + 1) * (rows * cols - s.cost.length)
            = (rows * cols + 1) * (rows * cols - (s.cost.length + 1)) + (rows * cols + 1) := by
          rw [hx, Nat.mul_succ]
        rw [hmul]
        have hncle : nc ≤ s.cost.length := by omega
        have : s.cost.length ≤ rows * cols := by omega
        omega
      | some o =>
        have hlen : (aset s.cost nb.1 nc).length = s.cost.length :=
          aset_length_some s.cost nb.1 nc o hl0
        have hsum : ((aset s.cost nb.1 nc).map Prod.snd).sum + o
            = (s.cost.map Prod.snd).sum + nc := aset_sum_some s.cost nb.1 nc o hl0
        have hno := hbig o hl0
        simp only [dMeasure, costPhi, hqlen, hlen]
        omega

/-- Folding `relax` over any sublist of the neighbor list keeps the
invariants and relaxes every processed neighbor. -/
theorem expandFold_spec {rows cols : Nat} {grid : List (List Nat)} {start cur : Cell}
    {dcur : Nat} :
    ∀ (ns : List (Cell × Nat)) (s : DState),
      DCore rows cols grid start s →
      ExpandedBut rows cols grid cur s →
      (∀ nb ∈ ns, nb ∈ get_valid_neighbors cur.1 cur.2 rows cols grid) →
      alookup s.cost cur = some dcur →
      DCore rows cols grid start (ns.foldl (relax cur) s) ∧
      ExpandedBut rows cols grid cur (ns.foldl (relax cur) s) ∧
      alookup (ns.foldl (relax cur) s).cost cur = some dcur ∧
      (∀ v k, alookup s.cost v = some k →
        ∃ k', alookup (ns.foldl (relax cur) s).cost v = some k' ∧ k' ≤ k) ∧
      (∀ e ∈ s.queue, e ∈ (ns.foldl (relax cur) s).queue) ∧
      (∀ nb ∈ ns,
        ∃ j, alookup (ns.foldl (relax cur) s).cost nb.1 = some j ∧ j ≤ dcur + nb.2) ∧
      (∀ endNode, EndPending endNode s → EndPending endNode (ns.foldl (relax cur) s)) ∧
      dMeasure (rows * cols) (ns.foldl (relax cur) s) ≤ dMeasure (rows * cols) s := by
  intro ns
  induction ns with
  | nil =>
    intro s h1 h2 _ h4
    simp only [List.foldl_nil]
    exact ⟨h1, h2, h4, fun v k hk => ⟨k, hk, le_refl k⟩, fun e he => he,
      fun nb hnb => absurd hnb (List.not_mem_nil nb), fun endNode h => h, le_refl _⟩
  | cons nb rest ih =>
    intro s h1 h2 h3 h4
    simp only [List.foldl_cons]
    obtain ⟨c1, c2, c3, c4, c5, c6, c7, c8⟩ :=
      relax_preserves h1 h2 (h3 nb (List.mem_cons_self nb rest)) h4
    obtain ⟨d1, d2, d3, d4, d5, d6, d7, d8⟩ :=
      ih (relax cur s nb) c1 c2 (fun x hx => h3 x (List.mem_cons_of_mem nb hx)) c3
    refine ⟨d1, d2, d3, ?_, ?_, ?_, ?_, le_trans d8 c8⟩
    · intro v k hk
      obtain ⟨k', hk', hle'⟩ := c4 v k hk
      obtain ⟨k'', hk'', hle''⟩ := d4 v k' hk'
      exact ⟨k'', hk'', le_trans hle'' hle'⟩
    · intro e he
      exact d5 e (c5 e he)
    · intro x hx
      rcases List.mem_cons.mp hx with hx' | hx'
      · subst hx'
        obtain ⟨j, hj, hjle⟩ := c6
        obtain ⟨j', hj', hj'le⟩ := d4 x.1 j hj
        exact ⟨j', hj', le_trans hj'le hjle⟩
      · exact d6 x hx'
    · intro endNode h
      exact d7 endNode (c7 endNode h)

/-- One full loop iteration on a non-goal pop keeps the invariants,
keeps the goal pending, and strictly decreases the measure. -/
theorem step_preserves {rows cols : Nat} {grid : List (List Nat)}
    {start endNode cur : Cell} {p : Nat} {rest : List (Cell × Nat)} {s : DState}
    (hcore : DCore rows cols grid start s)
    (hexp : Expanded rows cols grid s)
    (hpend : EndPending endNode s)
    (hq : s.queue = (cur, p) :: rest)
    (hcur : cur ≠ endNode) :
    DCore rows cols grid start (expand rows cols grid cur { s with queue := rest }) ∧
    Expanded rows cols grid (expand rows cols grid cur { s with queue := rest }) ∧
    EndPending endNode (expand rows cols grid cur { s with queue := rest }) ∧
    dMeasure (rows * cols) (expand rows cols grid cur { s with queue := rest })
      < dMeasure (rows * cols) s := by
  have hmem : (cur, p) ∈ s.queue := by rw [hq]; exact List.mem_cons_self _ _
  obtain ⟨dcur, hdcur, hdle⟩ := hcore.qmem (cur, p) hmem
  have hcore1 : DCore rows cols grid start { s with queue := rest } := by
    refine ⟨?_, ?_, hcore.startCost, hcore.startCame, hcore.cameOk, hcore.cameTotal,
      hcore.costOk, hcore.reachesIt, hcore.keysNodup, hcore.bounded⟩
    · have := hcore.sorted
      rw [hq] at this
      exact (List.pairwise_cons.mp this).2
    · intro e he
      exact hcore.qmem e (by rw [hq]; exact List.mem_cons_of_mem _ he)
  have hexp1 : ExpandedBut rows cols grid cur { s with queue := rest } := by
    intro v k hk
    rcases hexp v k hk with h | h
    · rw [hq] at h
      rcases List.mem_cons.mp h with h' | h'
      · exact Or.inr (Or.inl (congrArg Prod.fst h'))
      · exact Or.inl h'
    · exact Or.inr (Or.inr h)
  have hpend1 : EndPending endNode { s with queue := rest } := by
    rcases hpend with h | ⟨e, he, he1⟩
    · exact Or.inl h
    · rw [hq] at he
      rcases List.mem_cons.mp he with h' | h'
      · exact absurd (by rw [h'] at he1; exact he1) hcur
      · exact Or.inr ⟨e, h', he1⟩
  unfold expand
  obtain ⟨d1, d2, d3, d4, d5, d6, d7, d8⟩ :=
    @expandFold_spec rows cols grid start cur dcur
      (get_valid_neighbors cur.1 cur.2 rows cols grid)
      { s with queue := rest } hcore1 hexp1 (fun nb hnb => hnb) hdcur
  refine ⟨d1, ?_, d7 endNode hpend1, ?_⟩
  · intro v k hk
    rcases d2 v k hk with h | h | h
    · exact Or.inl h
    · subst h
      have hk' : k = dcur := by
        rw [hk] at d3
        exact Option.some.inj d3
      subst hk'
      exact Or.inr (fun nb hnb => d6 nb hnb)
    · exact Or.inr h
  · have hstep : dMeasure (rows * cols) { s with queue := rest } + 1
        = dMeasure (rows * cols) s := by
      simp only [dMeasure, costPhi, hq, List.length_cons]
      omega
    omega

/-- The loop terminates within the measure's worth of fuel, and its result is
characterized: on `true` the goal was just popped from an invariant state, on
`false` the queue was exhausted with the goal never costed. -/
theorem dloop_spec {rows cols : Nat} {grid : List (List Nat)} {start endNode : Cell} :
    ∀ (fuel : Nat) (s : DState),
      DCore rows cols grid start s →
      Expanded rows cols grid s →
      EndPending endNode s →
      dMeasure (rows * cols) s < fuel →
      ∃ r, dloop rows cols grid endNode fuel s = some r ∧
        (r.2 = true → ∃ p,
          DCore rows cols grid start ⟨(endNode, p) :: r.1.queue, r.1.cost, r.1.came⟩ ∧
          Expanded rows cols grid ⟨(endNode, p) :: r.1.queue, r.1.cost, r.1.came⟩) ∧
        (r.2 = false →
          DCore rows cols grid start r.1 ∧ Expanded rows cols grid r.1 ∧
          r.1.queue = [] ∧ alookup r.1.cost endNode = none) := by
  intro fuel
  induction fuel with
  | zero => intro s _ _ _ hm; omega
  | succ fuel ih =>
    intro s hcore hexp hpend hm
    cases hq : s.queue with
    | nil =>
      refine ⟨(s, false), ?_, ?_, ?_⟩
      · simp [dloop, hq]
      · intro h; simp at h
      · intro _
        refine ⟨hcore, hexp, hq, ?_⟩
        rcases hpend with h | ⟨e, he, _⟩
        · exact h
        · rw [hq] at he
          exact absurd he (List.not_mem_nil e)
    | cons hd rest =>
      obtain ⟨cur, p⟩ := hd
      by_cases hcur : cur = endNode
      · subst hcur
        refine ⟨({ s with queue := rest }, true), ?_, ?_, ?_⟩
        · simp [dloop, hq]
        · intro _
          refine ⟨p, ?_, ?_⟩
          · have hse : (⟨(cur, p) :: rest, s.cost, s.came⟩ : DState) = s := by
              rw [← hq]
            rw [hse]
            exact hcore
          · have hse : (⟨(cur, p) :: rest, s.cost, s.came⟩ : DState) = s := by
              rw [← hq]
            rw [hse]
            exact hexp
        · intro h; simp at h
      · obtain ⟨e1, e2, e3, e4⟩ := step_preserves hcore hexp hpend hq hcur
        obtain ⟨r, hr, hrt, hrf⟩ :=
          ih (expand rows cols grid cur { s with queue := rest }) e1 e2 e3 (by omega)
        refine ⟨r, ?_, hrt, hrf⟩
        simp only [dloop, hq]
        rw [if_neg hcur]
        exact hr

/-- Frontier lemma: every walk from the start either ends in a node already
costed within the walk's length, or crosses a queue entry of priority at most
the walk's length. -/
theorem reach_bound {rows cols : Nat} {grid : List (List Nat)} {start : Cell}
    {s : DState} (hcore : DCore rows cols grid start s)
    (hexp : Expanded rows cols grid s) :
    ∀ {z : Cell} {m : Nat}, GoodPath rows cols grid start z m →
      (∃ k, alookup s.cost z = some k ∧ k ≤ m) ∨ (∃ e ∈ s.queue, e.2 ≤ m) := by
  intro z m hp
  induction hp with
  | nil ha => exact Or.inl ⟨0, hcore.startCost, le_refl 0⟩
  | @snoc b c n hp hs ihp =>
    rcases ihp with ⟨k, hk, hkm⟩ | ⟨e, he, hem⟩
    · rcases hexp b k hk with h | h
      · exact Or.inr ⟨(b, k), h, by omega⟩
      · obtain ⟨j, hj, hjle⟩ := h (c, 1) hs
        exact Or.inl ⟨j, hj, by omega⟩
    · exact Or.inr ⟨e, he, by omega⟩

/-- At the moment the goal is popped, its cost is a lower bound on no walk:
it is at most the length of every walk from start to goal. -/
theorem found_min {rows cols : Nat} {grid : List (List Nat)} {start endNode : Cell}
    {p : Nat} {q : List (Cell × Nat)} {cost : List (Cell × Nat)}
    {came : List (Cell × Option Cell)}
    (hcore : DCore rows cols grid start ⟨(endNode, p) :: q, cost, came⟩)
    (hexp : Expanded rows cols grid ⟨(endNode, p) :: q, cost, came⟩) :
    ∃ k, alookup cost endNode = some k ∧ k ≤ p ∧
      ∀ m, GoodPath rows cols grid start endNode m → k ≤ m := by
  obtain ⟨k, hk, hkp⟩ := hcore.qmem (endNode, p) (List.mem_cons_self _ _)
  refine ⟨k, hk, hkp, ?_⟩
  intro m hm
  rcases reach_bound hcore hexp hm with ⟨k', hk', hk'm⟩ | ⟨e, he, hem⟩
  · have : k' = k := Option.some.inj (hk'.symm.trans hk)
    omega
  · rcases List.mem_cons.mp he with h' | h'
    · rw [h'] at hem
      omega
    · have hord := hcore.sorted
      have := (List.pairwise_cons.mp hord).1 e h'
      simp only at this
      omega

/-- Path reconstruction from any costed node yields a valid walk from the
start, of list length at most cost + 1, with enough fuel. -/
theorem recon_spec {rows cols : Nat} {grid : List (List Nat)} {start : Cell}
    {s : DState} (hcore : DCore rows cols grid start s) :
    ∀ (k : Nat) (v : Cell), alookup s.cost v = some k →
      ∀ fuel, k + 1 ≤ fuel → ∀ acc,
        ∃ chain, recon s.came fuel (some v) acc = chain ++ acc ∧
          chain ≠ [] ∧ chain.head? = some start ∧ chain.getLast? = some v ∧
          List.Chain' (IsStep rows cols grid) chain ∧
          (∀ x ∈ chain, cellOk grid rows cols x.1 x.2) ∧ chain.length ≤ k + 1 := by
  intro k
  induction k using Nat.strong_induction_on with
  | _ k ih =>
    intro v hv fuel hfuel acc
    by_cases hvs : v = start
    · obtain ⟨f', rfl⟩ : ∃ f', fuel = f' + 1 := ⟨fuel - 1, by omega⟩
      refine ⟨[v], ?_, by simp, by simp [hvs], by simp, by simp, ?_, by simp⟩
      · have hcame : alookup s.came v = some none := by rw [hvs]; exact hcore.startCame
        simp [recon, hcame]
      · intro x hx
        have hxs : x = v := by simpa using hx
        rw [hxs]
        exact hcore.costOk v k hv
    · obtain ⟨u, hu⟩ := hcore.cameTotal v k hv hvs
      obtain ⟨hstepv, j, k', hju, hk'v, hjk⟩ := hcore.cameOk v u hu
      have hk' : k' = k := Option.some.inj (hk'v.symm.trans hv)
      rw [hk'] at hjk
      obtain ⟨f', rfl⟩ : ∃ f', fuel = f' + 1 := ⟨fuel - 1, by omega⟩
      obtain ⟨chain, hch, hne, hhd, hlast, hchain, hok, hlen⟩ :=
        ih j hjk u hju f' (by omega) (v :: acc)
      refine ⟨chain ++ [v], ?_, by simp, ?_, ?_, ?_, ?_, ?_⟩
      · have hjoin : (alookup s.came v).join = some u := by rw [hu]; rfl
        simp only [recon, hjoin]
        rw [hch, List.append_assoc]
        simp
      · obtain ⟨c0, ct, hceq⟩ := List.exists_cons_of_ne_nil hne
        rw [hceq] at hhd ⊢
        simpa using hhd
      · simp
      · rw [List.chain'_append]
        refine ⟨hchain, List.chain'_singleton v, ?_⟩
        intro x hx y hy
        have hxu : x = u := by
          have h1 : chain.getLast? = some x := hx
          rw [hlast] at h1
          exact (Option.some.inj h1).symm
        have hyv : y = v := by
          have h2 : ([v] : List Cell).head? = some y := hy
          simpa using h2.symm
        rw [hxu, hyv]
        exact hstepv
      · intro x hx
        rcases List.mem_append.mp hx with h' | h'
        · exact hok x h'
        · have hxv : x = v := by simpa using h'
          rw [hxv]
          exact hcore.costOk v k hv
      · rw [List.length_append]
        simp only [List.length_singleton]
        omega

theorem alookup_singleton {α : Type} (a v : Cell) (x : α) :
    alookup [(a, x)] v = if v = a then some x else none := by
  simp [alookup]

/-- The state right after `pq.put(start, 0)` and the dict initializations
satisfies the loop invariants. -/
theorem init_invariants {rows cols : Nat} {grid : List (List Nat)} {startNode : Cell}
    (hs : cellOk grid rows cols startNode.1 startNode.2) :
    DCore rows cols grid startNode
      ⟨[(startNode, 0)], [(startNode, 0)], [(startNode, none)]⟩ ∧
    Expanded rows cols grid ⟨[(startNode, 0)], [(startNode, 0)], [(startNode, none)]⟩ := by
  constructor
  · refine ⟨?_, ?_, ?_, ?_, ?_, ?_, ?_, ?_, ?_, ?_⟩
    · simp
    · intro e he
      have he' : e = (startNode, 0) := by simpa using he
      rw [he']
      exact ⟨0, by simp [alookup], le_refl 0⟩
    · simp [alookup]
    · simp [alookup]
    · intro v u hvu
      rw [alookup_singleton] at hvu
      by_cases hv : v = startNode
      · rw [if_pos hv] at hvu
        exact Option.noConfusion (Option.some.inj hvu)
      · rw [if_neg hv] at hvu
        exact Option.noConfusion hvu
    · intro v k hk hvs
      rw [alookup_singleton] at hk
      by_cases hv : v = startNode
      · exact absurd hv hvs
      · rw [if_neg hv] at hk
        exact Option.noConfusion hk
    · intro v k hk
      rw [alookup_singleton] at hk
      by_cases hv : v = startNode
      · rw [hv]; exact hs
      · rw [if_neg hv] at hk
        exact Option.noConfusion hk
    · intro v k hk
      rw [alookup_singleton] at hk
      by_cases hv : v = startNode
      · rw [hv]; exact ⟨0, GoodPath.nil startNode hs⟩
      · rw [if_neg hv] at hk
        exact Option.noConfusion hk
    · simp
    · intro v k hk
      rw [alookup_singleton] at hk
      by_cases hv : v = startNode
      · rw [if_pos hv] at hk
        have hk0 : k = 0 := (Option.some.inj hk).symm
        simp [hk0]
      · rw [if_neg hv] at hk
        exact Option.noConfusion hk
  · intro v k hk
    rw [alookup_singleton] at hk
    by_cases hv : v = startNode
    · rw [if_pos hv] at hk
      have hk0 : k = 0 := (Option.some.inj hk).symm
      left
      rw [hv, hk0]
      simp
    · rw [if_neg hv] at hk
      exact Option.noConfusion hk

/-- Full correctness of the embedded `dijkstra` on any grid.  For pathable
in-bounds endpoints: if the goal is reachable from the start, the returned
path is nonempty, starts at the start, ends at the goal, moves only along
valid 4-connected neighbor steps, visits only pathable in-bounds cells, and
has minimal length among all such walks; if unreachable, the empty list is
returned. -/
theorem dijkstra_correct (grid : List (List Nat)) (startNode endNode : Cell)
    (hs : cellOk grid grid.length (grid.headD []).length startNode.1 startNode.2)
    (he : cellOk grid grid.length (grid.headD []).length endNode.1 endNode.2) :
    (Reach grid.length (grid.headD []).length grid startNode endNode →
      dijkstra grid startNode endNode ≠ [] ∧
      (dijkstra grid startNode endNode).head? = some startNode ∧
      (dijkstra grid startNode endNode).getLast? = some endNode ∧
      List.Chain' (IsStep grid.length (grid.headD []).length grid)
        (dijkstra grid startNode endNode) ∧
      (∀ x ∈ dijkstra grid startNode endNode,
        cellOk grid grid.length (grid.headD []).length x.1 x.2) ∧
      (∀ n, GoodPath grid.length (grid.headD []).length grid startNode endNode n →
        (dijkstra grid startNode endNode).length ≤ n + 1)) ∧
    (¬ Reach grid.length (grid.headD []).length grid startNode endNode →
      dijkstra grid startNode endNode = []) := by
  obtain ⟨hcore0, hexp0⟩ :=
    @init_invariants grid.length (grid.headD []).length grid startNode hs
  have hpend0 : EndPending endNode
      ⟨[(startNode, 0)], [(startNode, 0)], [(startNode, none)]⟩ := by
    by_cases h : endNode = startNode
    · exact Or.inr ⟨(startNode, 0), by simp, h.symm⟩
    · exact Or.inl (by rw [alookup_singleton, if_neg h])
  have hm0 : dMeasure (grid.length * (grid.headD []).length)
      ⟨[(startNode, 0)], [(startNode, 0)], [(startNode, none)]⟩
      < loopFuel grid.length (grid.headD []).length := by
    simp only [dMeasure, costPhi, loopFuel, List.map_cons, List.map_nil,
      List.sum_cons, List.sum_nil, List.length_cons, List.length_nil,
      List.length_singleton, Nat.zero_add, Nat.add_zero]
    have hmul : (grid.length * (grid.headD []).length + 1)
          * (grid.length * (grid.headD []).length - 1)
        ≤ (grid.length * (grid.headD []).length + 1)
          * (grid.length * (grid.headD []).length + 1) :=
      Nat.mul_le_mul_left _ (by omega)
    have hassoc : 5 * (grid.length * (grid.headD []).length + 1)
          * (grid.length * (grid.headD []).length + 1)
        = 5 * ((grid.length * (grid.headD []).length + 1)
          * (grid.length * (grid.headD []).length + 1)) := by ring
    omega
  obtain ⟨r, hr, hrt, hrf⟩ := dloop_spec (loopFuel grid.length (grid.headD []).length)
    _ hcore0 hexp0 hpend0 hm0
  obtain ⟨s1, found⟩ := r
  cases found with
  | false =>
    obtain ⟨hc1, hx1, hq1, hnone⟩ := hrf rfl
    have hdij : dijkstra grid startNode endNode = [] := by
      unfold dijkstra
      rw [if_neg (not_not_intro hs), if_neg (not_not_intro he)]
      simp only [hr]
    constructor
    · intro hreach
      exfalso
      obtain ⟨n, hgp⟩ := hreach
      rcases reach_bound hc1 hx1 hgp with ⟨k, hk, _⟩ | ⟨e, he', _⟩
      · rw [hnone] at hk
        exact Option.noConfusion hk
      · rw [hq1] at he'
        exact absurd he' (List.not_mem_nil e)
    · intro _
      exact hdij
  | true =>
    obtain ⟨p, hc1, hx1⟩ := hrt rfl
    obtain ⟨k, hk, hkp, hmin⟩ := found_min hc1 hx1
    have hkb : k + 1 ≤ reconFuel grid.length (grid.headD []).length := by
      have h1 := hc1.bounded endNode k hk
      have h2 := cost_length_le hc1
      simp only [reconFuel]
      simp only [List.length_cons] at h1 h2 ⊢
      omega
    obtain ⟨chain, hch, hne, hhd, hlast, hchain, hok, hlen⟩ :=
      recon_spec hc1 k endNode hk (reconFuel grid.length (grid.headD []).length) hkb []
    rw [List.append_nil] at hch
    have hch' : recon s1.came (reconFuel grid.length (grid.headD []).length)
        (some endNode) [] = chain := hch
    have hdij : dijkstra grid startNode endNode = chain := by
      unfold dijkstra
      rw [if_neg (not_not_intro hs), if_neg (not_not_intro he)]
      simp only [hr]
      rw [hch', if_pos hhd]
    refine ⟨fun _ => ⟨?_, ?_, ?_, ?_, ?_, ?_⟩, ?_⟩
    · rw [hdij]; exact hne
    · rw [hdij]; exact hhd
    · rw [hdij]; exact hlast
    · rw [hdij]; exact hchain
    · rw [hdij]; exact hok
    · intro n hn
      rw [hdij]
      have := hmin n hn
      omega
    · intro hnr
      exact absurd (hc1.reachesIt endNode k hk) hnr

theorem goodPath_cons {rows cols : Nat} {grid : List (List Nat)} {a b c : Cell} {n : Nat}
    (ha : cellOk grid rows cols a.1 a.2) (hs : IsStep rows cols grid a b)
    (hp : GoodPath rows cols grid b c n) : GoodPath rows cols grid a c (n + 1) := by
  induction hp with
  | nil ha' => exact GoodPath.snoc (GoodPath.nil a ha) hs
  | @snoc d e m hp' hs' ih => exact GoodPath.snoc ih hs'

/-- Any nonempty list of pathable cells chained by valid neighbor steps is a
walk of `length - 1` edges between its endpoints. -/
theorem listPath_goodPath {rows cols : Nat} {grid : List (List Nat)} :
    ∀ (l : List Cell) (a b : Cell), l ≠ [] → l.head? = some a → l.getLast? = some b →
      List.Chain' (IsStep rows cols grid) l →
      (∀ x ∈ l, cellOk grid rows cols x.1 x.2) →
      GoodPath rows cols grid a b (l.length - 1) := by
  intro l
  induction l with
  | nil => intro a b h; exact absurd rfl h
  | cons x t ih =>
    intro a b _ hhd hlast hchain hok
    have hax : x = a := Option.some.inj hhd
    cases t with
    | nil =>
      have hbx : x = b := by simpa using hlast
      rw [← hax, ← hbx]
      exact GoodPath.nil x (hok x (List.mem_cons_self x []))
    | cons y t' =>
      have hstep : IsStep rows cols grid x y := (List.chain'_cons.mp hchain).1
      have hchain' := (List.chain'_cons.mp hchain).2
      have hlast' : (y :: t').getLast? = some b := by
        rw [List.getLast?_cons_cons] at hlast
        exact hlast
      have hgp := ih y b (by simp) (by simp) hlast' hchain'
        (fun z hz => hok z (List.mem_cons_of_mem x hz))
      have hgp' := goodPath_cons (hax ▸ hok x (List.mem_cons_self x (y :: t'))) hstep hgp
      rw [hax] at hgp'
      simpa using hgp'

/-- **C1**: on the fixed grid, for every pathable, mutually reachable
start/goal pair, `dijkstra` returns a nonempty path that starts at the
start, ends at the goal, moves by unit cardinal steps through pathable
cells only, and is of minimal length; for pathable but unreachable pairs it
returns the empty list instead of raising an error. -/
theorem C1_planner_shortest_path (s g : Cell)
    (hs : cellOk grid_map GRID_ROWS GRID_COLS s.1 s.2)
    (hg : cellOk grid_map GRID_ROWS GRID_COLS g.1 g.2) :
    (Reach GRID_ROWS GRID_COLS grid_map s g →
      dijkstra grid_map s g ≠ [] ∧
      (dijkstra grid_map s g).head? = some s ∧
      (dijkstra grid_map s g).getLast? = some g ∧
      List.Chain' UnitStep (dijkstra grid_map s g) ∧
      List.Chain' (IsStep GRID_ROWS GRID_COLS grid_map) (dijkstra grid_map s g) ∧
      (∀ x ∈ dijkstra grid_map s g, cellOk grid_map GRID_ROWS GRID_COLS x.1 x.2) ∧
      (∀ l : List Cell, l ≠ [] → l.head? = some s → l.getLast? = some g →
        List.Chain' (IsStep GRID_ROWS GRID_COLS grid_map) l →
        (∀ x ∈ l, cellOk grid_map GRID_ROWS GRID_COLS x.1 x.2) →
        (dijkstra grid_map s g).length ≤ l.length)) ∧
    (¬ Reach GRID_ROWS GRID_COLS grid_map s g → dijkstra grid_map s g = []) := by
  obtain ⟨h1, h2⟩ := dijkstra_correct grid_map s g hs hg
  refine ⟨?_, h2⟩
  intro hreach
  obtain ⟨hne, hhd, hlast, hchain, hok, hmin⟩ := h1 hreach
  refine ⟨hne, hhd, hlast, ?_, hchain, hok, ?_⟩
  · exact List.Chain'.imp (fun a b h => isStep_unitStep h) hchain
  · intro l hlne hlhd hllast hlchain hlok
    have hgp := listPath_goodPath l s g hlne hlhd hllast hlchain hlok
    have := hmin (l.length - 1) hgp
    have hl1 : 1 ≤ l.length := List.length_pos.mpr hlne
    omega

theorem C1_planner_shortest_path_witness :
    cellOk grid_map GRID_ROWS GRID_COLS 2 0 ∧
    Reach GRID_ROWS GRID_COLS grid_map (2, 0) (2, 1) ∧
    dijkstra grid_map (2, 0) (2, 1) ≠ [] ∧
    (dijkstra grid_map (2, 0) (2, 1)).head? = some (2, 0) ∧
    (dijkstra grid_map (2, 0) (2, 1)).getLast? = some (2, 1) ∧
    (dijkstra grid_map (2, 0) (2, 1)).length ≤ 2 := by
  have hreach : Reach GRID_ROWS GRID_COLS grid_map (2, 0) (2, 1) :=
    ⟨1, GoodPath.snoc (GoodPath.nil (2, 0) (by decide)) (by decide)⟩
  have h := (C1_planner_shortest_path (2, 0) (2, 1) (by decide) (by decide)).1 hreach
  refine ⟨by decide, hreach, h.1, h.2.1, h.2.2.1, ?_⟩
  exact h.2.2.2.2.2.2 [(2, 0), (2, 1)] (by decide) (by decide) (by decide)
    (List.chain'_cons.mpr ⟨by decide, List.chain'_singleton _⟩) (by decide)

/-- **C5 amended**: for a start or goal that is out of bounds or not
pathable, `dijkstra` logs and returns the plain empty list — the very value
used for the retryable no-route outcome — rather than signalling a distinct
`InvalidEndpoint` error. -/
theorem C5_invalid_endpoint_returns_empty (grid : List (List Nat)) (s g : Cell)
    (h : ¬ cellOk grid grid.length (grid.headD []).length s.1 s.2 ∨
         ¬ cellOk grid grid.length (grid.headD []).length g.1 g.2) :
    dijkstra grid s g = [] := by
  unfold dijkstra
  rcases h with h | h
  · rw [if_pos h]
  · by_cases hs : cellOk grid grid.length (grid.headD []).length s.1 s.2
    · rw [if_neg (not_not_intro hs), if_pos h]
    · rw [if_pos hs]

/-- **C5 counterexample**: `(0,0)` is not pathable, so the pair is an invalid
endpoint, yet the planner returns the empty list — indistinguishable from
the retryable no-route result, with no error signalled. -/
theorem C5_counterexample :
    ¬ cellOk grid_map GRID_ROWS GRID_COLS 0 0 ∧
    cellOk grid_map GRID_ROWS GRID_COLS 2 0 ∧
    dijkstra grid_map (0, 0) (2, 0) = [] := by
  refine ⟨by decide, by decide, by decide⟩

theorem C5_invalid_endpoint_returns_empty_witness :
    (¬ cellOk grid_map grid_map.length (grid_map.headD []).length 0 0 ∨
      ¬ cellOk grid_map grid_map.length (grid_map.headD []).length 2 0) ∧
    dijkstra grid_map (0, 0) (2, 0) = [] := by
  refine ⟨Or.inl (by decide), ?_⟩
  exact C5_invalid_endpoint_returns_empty grid_map (0, 0) (2, 0) (Or.inl (by decide))

/-- **C3** (evidence for the code bug): in phase `ADJUSTING_ON_LINE` with the
all-sensors-on pattern, at a time strictly past `phase_start_time +
MAX_ADJUST_DURATION`, one execution of the adjustment step leaves the phase
at `ADJUSTING_ON_LINE` and returns the nonzero gentle-correction speed pair
instead of forcing `NONE` with zero speed: the source's timeout check sits
after a dispatch in which every branch returns, so it can never run. -/
theorem C3_adjust_timeout_unreachable :
    MAX_ADJUST_DURATION <
      (MAX_ADJUST_DURATION + 1) -
        (⟨TurnPhase.ADJUSTING_ON_LINE, some "turn_left", 0⟩ :
          TurnControllerState).phase_start_time ∧
    (execute_turn ⟨TurnPhase.ADJUSTING_ON_LINE, some "turn_left", 0⟩ (1, 1, 1)
        (MAX_ADJUST_DURATION + 1)).1.current_phase = TurnPhase.ADJUSTING_ON_LINE ∧
    (execute_turn ⟨TurnPhase.ADJUSTING_ON_LINE, some "turn_left", 0⟩ (1, 1, 1)
        (MAX_ADJUST_DURATION + 1)).2 =
      (TURN_ADJUST_BASE_SPEED * 0.7, TURN_ADJUST_BASE_SPEED * 0.7) ∧
    (execute_turn ⟨TurnPhase.ADJUSTING_ON_LINE, some "turn_left", 0⟩ (1, 1, 1)
        (MAX_ADJUST_DURATION + 1)).2 ≠ ((0 : ℚ), (0 : ℚ)) := by
  refine ⟨by norm_num [MAX_ADJUST_DURATION], rfl, rfl, ?_⟩
  intro h
  have h1 : TURN_ADJUST_BASE_SPEED * 0.7 = (0 : ℚ) := congrArg Prod.fst h
  norm_num [TURN_ADJUST_BASE_SPEED, FORWARD_SPEED] at h1

/-- **C7**: the empty-read disconnect handler clears exactly the
session-scoped belief — actual position, path position, planned path — and
forces the replan flag, while the last known goal, the cursor variable and
the replan timestamp are left untouched. -/
theorem C7_disconnect_resets_session_only (s : ServerState) :
    (handleDisconnect s).current_robot_grid_pos_actual = none ∧
    (handleDisconnect s).current_robot_grid_pos_path = none ∧
    (handleDisconnect s).planned_path = [] ∧
    (handleDisconnect s).path_needs_replan = true ∧
    (handleDisconnect s).goal_grid_pos = s.goal_grid_pos ∧
    (handleDisconnect s).current_path_index = s.current_path_index ∧
    (handleDisconnect s).last_replan_time = s.last_replan_time :=
  ⟨rfl, rfl, rfl, rfl, rfl, rfl, rfl⟩

/-- **C10**: on a tick with no turn in progress, a remote `forward` with all
three line sensors reading no-line resolves to `turn_left`; and the remote
command is passed through verbatim only when a line is detected or the
command is a turn or a stop. -/
theorem C10_no_line_forward_resolves_turn_left (tc : TurnControllerState)
    (cmd : String) (ld : Nat × Nat × Nat)
    (hphase : ¬ is_turning tc)
    (hcmd : cmd = "forward" ∨ cmd = "turn_left" ∨ cmd = "turn_right" ∨ cmd = "stop") :
    (cmd = "forward" → ¬ sensorsAny ld →
      (resolve_effective_command tc cmd ld).2 = some "turn_left") ∧
    ((resolve_effective_command tc cmd ld).2 = some cmd →
      sensorsAny ld ∨ cmd = "turn_left" ∨ cmd = "turn_right" ∨ cmd = "stop") := by
  unfold resolve_effective_command
  rw [if_neg hphase]
  constructor
  · intro hfwd hline
    rw [if_neg (fun h => hline h.1), if_pos (show ¬ sensorsAny ld ∧ cmd = "forward"
      from ⟨hline, hfwd⟩)]
  · intro hres
    by_cases hline : sensorsAny ld
    · exact Or.inl hline
    · rw [if_neg (fun h => hline h.1)] at hres
      by_cases hfwd : cmd = "forward"
      · rw [if_pos (show ¬ sensorsAny ld ∧ cmd = "forward" from ⟨hline, hfwd⟩)] at hres
        exact Or.inr (Or.inl (Option.some.inj hres).symm)
      · rcases hcmd with h | h | h | h
        · exact absurd h hfwd
        · exact Or.inr (Or.inl h)
        · exact Or.inr (Or.inr (Or.inl h))
        · exact Or.inr (Or.inr (Or.inr h))

theorem C10_no_line_forward_resolves_turn_left_witness :
    ¬ is_turning turnControllerInit ∧
    ¬ sensorsAny (0, 0, 0) ∧
    (resolve_effective_command turnControllerInit "forward" (0, 0, 0)).2
      = some "turn_left" := by
  refine ⟨by decide, by decide, ?_⟩
  exact (C10_no_line_forward_resolves_turn_left turnControllerInit "forward" (0, 0, 0)
    (by decide) (Or.inl rfl)).1 rfl (by decide)

/-! ## Obstacle detector dedup (claim C9) -/

/-- Invariants of the sensor loop: the batch is a subset of the final
accumulated set, is duplicate-free, the accumulated set only grows, and every
reported cell is either carried in from the accumulator argument or was not
yet in the accumulated set. -/
theorem processLoop_spec (row col : Int) (θ : ℝ) :
    ∀ (dvs : List ℚ) (i : Nat) (newObs detected : List (Int × Int)),
      (∀ x ∈ newObs, x ∈ detected) → newObs.Nodup →
      (∀ x ∈ (processReadingsLoop row col θ i dvs newObs detected).1,
        x ∈ (processReadingsLoop row col θ i dvs newObs detected).2) ∧
      (processReadingsLoop row col θ i dvs newObs detected).1.Nodup ∧
      (∀ x ∈ detected, x ∈ (processReadingsLoop row col θ i dvs newObs detected).2) ∧
      (∀ x ∈ (processReadingsLoop row col θ i dvs newObs detected).1,
        x ∈ newObs ∨ x ∉ detected) := by
  intro dvs
  induction dvs with
  | nil =>
    intro i newObs detected hsub hnd
    simp only [processReadingsLoop]
    exact ⟨hsub, hnd, fun x hx => hx, fun x hx => Or.inl hx⟩
  | cons dv rest ih =>
    intro i newObs detected hsub hnd
    simp only [processReadingsLoop]
    by_cases hdv : DISTANCE_SENSOR_THRESHOLD < dv
    · rw [if_pos hdv]
      by_cases hval : is_valid_position (calculate_obstacle_position row col θ i) ∧
          calculate_obstacle_position row col θ i ∉ detected
      · rw [if_pos hval]
        have hsub' : ∀ x ∈ newObs ++ [calculate_obstacle_position row col θ i],
            x ∈ calculate_obstacle_position row col θ i :: detected := by
          intro x hx
          rcases List.mem_append.mp hx with h' | h'
          · exact List.mem_cons_of_mem _ (hsub x h')
          · rw [List.mem_singleton.mp h']
            exact List.mem_cons_self _ _
        have hnd' : (newObs ++ [calculate_obstacle_position row col θ i]).Nodup := by
          rw [List.nodup_append]
          refine ⟨hnd, List.nodup_singleton _, ?_⟩
          intro x hx hx'
          rw [List.mem_singleton.mp hx'] at hx
          exact hval.2 (hsub _ hx)
        obtain ⟨a, b, c, d⟩ := ih (i + 1) (newObs ++ [calculate_obstacle_position row col θ i])
          (calculate_obstacle_position row col θ i :: detected) hsub' hnd'
        refine ⟨a, b, fun x hx => c x (List.mem_cons_of_mem _ hx), ?_⟩
        intro x hx
        rcases d x hx with h' | h'
        · rcases List.mem_append.mp h' with h'' | h''
          · exact Or.inl h''
          · right
            rw [List.mem_singleton.mp h'']
            exact hval.2
        · exact Or.inr (fun hc => h' (List.mem_cons_of_mem _ hc))
      · rw [if_neg hval]
        exact ih (i + 1) newObs detected hsub hnd
    · rw [if_neg hdv]
      exact ih (i + 1) newObs detected hsub hnd

/-- `process_sensor_readings`: the returned batch is duplicate-free, joins
the accumulated set, never repeats an already-accumulated cell, and the
accumulated set only grows. -/
theorem process_sensor_readings_spec (st : ObstacleDetectorState)
    (x z : ℚ) (θ : ℝ) (dists : List ℚ) :
    (∀ c ∈ (process_sensor_readings st x z θ dists).1,
      c ∈ (process_sensor_readings st x z θ dists).2.detected_obstacles) ∧
    (process_sensor_readings st x z θ dists).1.Nodup ∧
    (∀ c ∈ st.detected_obstacles,
      c ∈ (process_sensor_readings st x z θ dists).2.detected_obstacles) ∧
    (∀ c ∈ (process_sensor_readings st x z θ dists).1,
      c ∉ st.detected_obstacles) := by
  unfold process_sensor_readings
  rw [if_neg (show ¬ ¬ OBSTACLE_DETECTION_ENABLED = true from by decide)]
  obtain ⟨a, b, c, d⟩ := processLoop_spec (world_to_grid x z).1 (world_to_grid x z).2 θ
    dists 0 [] st.detected_obstacles (fun x hx => absurd hx (List.not_mem_nil x))
    List.nodup_nil
  refine ⟨a, b, c, ?_⟩
  intro e he
  rcases d e he with h' | h'
  · exact absurd h' (List.not_mem_nil e)
  · exact h'

/-- Across a whole sequence of calls: batches are duplicate-free, pairwise
disjoint, avoid everything already accumulated, and the accumulated set only
grows. -/
theorem runDetector_spec :
    ∀ (inputs : List SensorInput) (st : ObstacleDetectorState),
      List.Pairwise (fun b1 b2 => ∀ c ∈ b1, c ∉ b2) (runDetector st inputs).1 ∧
      (∀ b ∈ (runDetector st inputs).1, b.Nodup) ∧
      (∀ b ∈ (runDetector st inputs).1, ∀ c ∈ b, c ∉ st.detected_obstacles) ∧
      (∀ c ∈ st.detected_obstacles, c ∈ (runDetector st inputs).2.detected_obstacles) := by
  intro inputs
  induction inputs with
  | nil =>
    intro st
    simp only [runDetector]
    exact ⟨List.Pairwise.nil, fun b hb => absurd hb (List.not_mem_nil b),
      fun b hb => absurd hb (List.not_mem_nil b), fun c hc => hc⟩
  | cons inp rest ih =>
    intro st
    obtain ⟨pa, pb, pc, pd⟩ := process_sensor_readings_spec st inp.x inp.z inp.theta inp.dists
    obtain ⟨qa, qb, qc, qd⟩ :=
      ih (process_sensor_readings st inp.x inp.z inp.theta inp.dists).2
    simp only [runDetector]
    refine ⟨?_, ?_, ?_, ?_⟩
    · refine List.pairwise_cons.mpr ⟨?_, qa⟩
      intro b hb c hc hcb
      exact qc b hb c hcb (pa c hc)
    · intro b hb
      rcases List.mem_cons.mp hb with h' | h'
      · rw [h']; exact pb
      · exact qb b h'
    · intro b hb c hc
      rcases List.mem_cons.mp hb with h' | h'
      · rw [h'] at hc
        exact pd c hc
      · intro hcontra
        exact qc b h' c hc (pc c hcontra)
    · intro c hc
      exact qd c (pc c hc)

/-- **C9**: starting from a fresh detector, no grid cell ever appears in two
returned new-obstacle batches (and no batch repeats a cell), because the
accumulated set persists across calls; each drain of the pending queue
returns it and clears it. -/
theorem C9_obstacle_mapper_reports_each_cell_once (inputs : List SensorInput) :
    List.Pairwise (fun b1 b2 => ∀ c ∈ b1, c ∉ b2)
      (runDetector obstacleDetectorInit inputs).1 ∧
    (∀ b ∈ (runDetector obstacleDetectorInit inputs).1, b.Nodup) ∧
    (∀ st : ObstacleDetectorState,
      (get_recent_obstacles st).1 = st.recent_obstacles ∧
      (get_recent_obstacles st).2.recent_obstacles = []) := by
  obtain ⟨a, b, _, _⟩ := runDetector_spec inputs obstacleDetectorInit
  exact ⟨a, b, fun st => ⟨rfl, rfl⟩⟩

/-! ## Facts about the planning-side message step -/

theorem updateActualCore_fields (s : ServerState) (m : StatusMsg) :
    (updateActualCore s m).current_robot_grid_pos_actual = some m.robot_grid_pos ∧
    (updateActualCore s m).current_robot_grid_pos_path = s.current_robot_grid_pos_path ∧
    (updateActualCore s m).goal_grid_pos = s.goal_grid_pos ∧
    (updateActualCore s m).planned_path = s.planned_path ∧
    (updateActualCore s m).current_path_index = s.current_path_index := by
  unfold updateActualCore
  split_ifs <;> exact ⟨rfl, rfl, rfl, rfl, rfl⟩

theorem fillPathPos_fields (s : ServerState) (m : StatusMsg) :
    (fillPathPos s m).current_robot_grid_pos_actual = s.current_robot_grid_pos_actual ∧
    (fillPathPos s m).goal_grid_pos = s.goal_grid_pos ∧
    (fillPathPos s m).planned_path = s.planned_path ∧
    (fillPathPos s m).current_path_index = s.current_path_index ∧
    (fillPathPos s m).path_needs_replan = s.path_needs_replan := by
  unfold fillPathPos
  split_ifs <;> exact ⟨rfl, rfl, rfl, rfl, rfl⟩

theorem fillPathPos_pathPos_some (s : ServerState) (m : StatusMsg)
    (h : s.current_robot_grid_pos_path ≠ none) :
    (fillPathPos s m).current_robot_grid_pos_path = s.current_robot_grid_pos_path := by
  unfold fillPathPos
  rw [if_neg h]

theorem updateActual_fields (s : ServerState) (m : StatusMsg) :
    (updateActual s m).current_robot_grid_pos_actual = some m.robot_grid_pos ∧
    (updateActual s m).goal_grid_pos = s.goal_grid_pos ∧
    (updateActual s m).planned_path = s.planned_path ∧
    (updateActual s m).current_path_index = s.current_path_index := by
  unfold updateActual
  split_ifs with h
  · obtain ⟨c1, c2, c3, c4, c5⟩ := updateActualCore_fields s m
    obtain ⟨f1, f2, f3, f4, _⟩ := fillPathPos_fields (updateActualCore s m) m
    exact ⟨f1.trans c1, f2.trans c3, f3.trans c4, f4.trans c5⟩
  · rw [not_not] at h
    exact ⟨h.symm, rfl, rfl, rfl⟩

theorem updateActual_pathPos_some (s : ServerState) (m : StatusMsg)
    (h : s.current_robot_grid_pos_path ≠ none) :
    (updateActual s m).current_robot_grid_pos_path = s.current_robot_grid_pos_path := by
  unfold updateActual
  split_ifs with h1
  · obtain ⟨_, c2, _, _, _⟩ := updateActualCore_fields s m
    rw [fillPathPos_pathPos_some _ _ (by rw [c2]; exact h), c2]
  · rfl

theorem updateGoal_fields (s : ServerState) (m : StatusMsg) :
    (updateGoal s m).goal_grid_pos = some m.goal_grid_pos ∧
    (updateGoal s m).current_robot_grid_pos_actual = s.current_robot_grid_pos_actual ∧
    (updateGoal s m).current_robot_grid_pos_path = s.current_robot_grid_pos_path ∧
    (updateGoal s m).planned_path = s.planned_path ∧
    (updateGoal s m).current_path_index = s.current_path_index := by
  unfold updateGoal
  split_ifs with h
  · exact ⟨rfl, rfl, rfl, rfl, rfl⟩
  · rw [not_not] at h
    exact ⟨h.symm, rfl, rfl, rfl, rfl⟩

theorem fillActual_fields (s : ServerState) (m : StatusMsg) :
    (fillActual s m).goal_grid_pos = s.goal_grid_pos ∧
    (fillActual s m).current_robot_grid_pos_path = s.current_robot_grid_pos_path ∧
    (fillActual s m).planned_path = s.planned_path ∧
    (fillActual s m).current_path_index = s.current_path_index := by
  unfold fillActual
  split_ifs <;> exact ⟨rfl, rfl, rfl, rfl⟩

theorem fillActual_actual_some (s : ServerState) (m : StatusMsg)
    (h : s.current_robot_grid_pos_actual ≠ none) :
    (fillActual s m).current_robot_grid_pos_actual = s.current_robot_grid_pos_actual := by
  unfold fillActual
  rw [if_neg h]

theorem fillGoal_fields (s : ServerState) (m : StatusMsg) :
    (fillGoal s m).current_robot_grid_pos_actual = s.current_robot_grid_pos_actual ∧
    (fillGoal s m).current_robot_grid_pos_path = s.current_robot_grid_pos_path ∧
    (fillGoal s m).planned_path = s.planned_path ∧
    (fillGoal s m).current_path_index = s.current_path_index := by
  unfold fillGoal
  split_ifs <;> exact ⟨rfl, rfl, rfl, rfl⟩

theorem fillGoal_goal_some (s : ServerState) (m : StatusMsg)
    (h : s.goal_grid_pos ≠ none) :
    (fillGoal s m).goal_grid_pos = s.goal_grid_pos := by
  unfold fillGoal
  rw [if_neg h]

theorem uB_actual (s : ServerState) (m : StatusMsg) :
    (updateBelief s m).current_robot_grid_pos_actual = some m.robot_grid_pos := by
  unfold updateBelief
  have h1 := (updateActual_fields s m).1
  have h2 := (updateGoal_fields (updateActual s m) m).2.1
  have h3 := fillActual_actual_some (updateGoal (updateActual s m) m) m
    (by rw [h2, h1]; exact Option.noConfusion)
  have h4 := (fillPathPos_fields (fillActual (updateGoal (updateActual s m) m) m) m).1
  have h5 := (fillGoal_fields
    (fillPathPos (fillActual (updateGoal (updateActual s m) m) m) m) m).1
  rw [h5, h4, h3, h2, h1]

theorem uB_goal (s : ServerState) (m : StatusMsg) :
    (updateBelief s m).goal_grid_pos = some m.goal_grid_pos := by
  unfold updateBelief
  have h1 := (updateGoal_fields (updateActual s m) m).1
  have h2 := (fillActual_fields (updateGoal (updateActual s m) m) m).1
  have h3 := (fillPathPos_fields (fillActual (updateGoal (updateActual s m) m) m) m).2.1
  have h4 := fillGoal_goal_some
    (fillPathPos (fillActual (updateGoal (updateActual s m) m) m) m) m
    (by rw [h3, h2, h1]; exact Option.noConfusion)
  rw [h4, h3, h2, h1]

theorem uB_path (s : ServerState) (m : StatusMsg) :
    (updateBelief s m).planned_path = s.planned_path := by
  unfold updateBelief
  rw [(fillGoal_fields _ _).2.2.1, (fillPathPos_fields _ _).2.2.1,
    (fillActual_fields _ _).2.2.1, (updateGoal_fields _ _).2.2.2.1,
    (updateActual_fields _ _).2.2.1]

theorem uB_idx (s : ServerState) (m : StatusMsg) :
    (updateBelief s m).current_path_index = s.current_path_index := by
  unfold updateBelief
  rw [(fillGoal_fields _ _).2.2.2, (fillPathPos_fields _ _).2.2.2.1,
    (fillActual_fields _ _).2.2.2, (updateGoal_fields _ _).2.2.2.2,
    (updateActual_fields _ _).2.2.2]

theorem uB_pathPos_some (s : ServerState) (m : StatusMsg)
    (h : s.current_robot_grid_pos_path ≠ none) :
    (updateBelief s m).current_robot_grid_pos_path = s.current_robot_grid_pos_path := by
  unfold updateBelief
  have h1 := updateActual_pathPos_some s m h
  have h2 := (updateGoal_fields (updateActual s m) m).2.2.1
  have h3 := (fillActual_fields (updateGoal (updateActual s m) m) m).2.1
  have h4 := fillPathPos_pathPos_some (fillActual (updateGoal (updateActual s m) m) m) m
    (by rw [h3, h2, h1]; exact h)
  have h5 := (fillGoal_fields
    (fillPathPos (fillActual (updateGoal (updateActual s m) m) m) m) m).2.1
  rw [h5, h4, h3, h2, h1]

theorem mR_actual (now : Int) (s : ServerState) :
    (maybeReplan now s).1.current_robot_grid_pos_actual
      = s.current_robot_grid_pos_actual := by
  unfold maybeReplan
  split_ifs
  · split <;> try rfl
    dsimp only
    split
    · dsimp only
      split
      · rfl
      · split <;> rfl
    · rfl
  · rfl

theorem mR_goal (now : Int) (s : ServerState) :
    (maybeReplan now s).1.goal_grid_pos = s.goal_grid_pos := by
  unfold maybeReplan
  split_ifs
  · split <;> try rfl
    dsimp only
    split
    · dsimp only
      split
      · rfl
      · split <;> rfl
    · rfl
  · rfl

theorem mR_false (now : Int) (s : ServerState)
    (h : (maybeReplan now s).2 = false) : (maybeReplan now s).1 = s := by
  unfold maybeReplan at h ⊢
  split_ifs at h ⊢ with hc
  · exfalso
    split at h <;> try simp at h
    try dsimp only at h
    split at h <;> simp at h
  · rfl

theorem cA_actual (s : ServerState) (m : StatusMsg) :
    (computeAction s m).1.current_robot_grid_pos_actual
      = s.current_robot_grid_pos_actual := by
  unfold computeAction
  split_ifs
  · dsimp only
    split
    · split
      · split
        · try dsimp only
          split <;> rfl
        · rfl
      · rfl
    · rfl
  · rfl

theorem cA_goal (s : ServerState) (m : StatusMsg) :
    (computeAction s m).1.goal_grid_pos = s.goal_grid_pos := by
  unfold computeAction
  split_ifs
  · dsimp only
    split
    · split
      · split
        · try dsimp only
          split <;> rfl
        · rfl
      · rfl
    · rfl
  · rfl

theorem gO_idx (s : ServerState) (a : String) :
    (goalOverride s a).1.current_path_index = s.current_path_index := by
  unfold goalOverride
  split_ifs <;> rfl

/-! ## Claims C6 and C4: goal-reached override and failed replans -/

/-- C6: for every processed status message whose reported position equals the
reported goal, the outgoing command carries action `"stop"` and an empty
path, the stored plan is cleared and the forced-replan flag is suppressed,
regardless of the prior server state. -/
theorem C6_goal_reached_overrides (now : Int) (s : ServerState) (m : StatusMsg)
    (h : m.robot_grid_pos = m.goal_grid_pos) :
    (processStatus now s m).2.1.action = "stop" ∧
    (processStatus now s m).2.1.path = [] ∧
    (processStatus now s m).1.planned_path = [] ∧
    (processStatus now s m).1.path_needs_replan = false := by
  unfold processStatus
  dsimp only
  have hg : (computeAction (maybeReplan now (updateBelief s m)).1 m).1.current_robot_grid_pos_actual
      = (computeAction (maybeReplan now (updateBelief s m)).1 m).1.goal_grid_pos := by
    rw [cA_actual, cA_goal, mR_actual, mR_goal, uB_actual, uB_goal, h]
  unfold goalOverride
  rw [if_pos hg]
  exact ⟨rfl, rfl, rfl, rfl⟩

theorem C6_goal_reached_overrides_witness :
    (⟨(2, 0), (2, 0), 0, [0, 0, 0]⟩ : StatusMsg).robot_grid_pos
        = (⟨(2, 0), (2, 0), 0, [0, 0, 0]⟩ : StatusMsg).goal_grid_pos ∧
    ((processStatus 0 initialServerState ⟨(2, 0), (2, 0), 0, [0, 0, 0]⟩).2.1.action = "stop" ∧
     (processStatus 0 initialServerState ⟨(2, 0), (2, 0), 0, [0, 0, 0]⟩).2.1.path = [] ∧
     (processStatus 0 initialServerState ⟨(2, 0), (2, 0), 0, [0, 0, 0]⟩).1.planned_path = [] ∧
     (processStatus 0 initialServerState ⟨(2, 0), (2, 0), 0, [0, 0, 0]⟩).1.path_needs_replan
        = false) :=
  ⟨rfl, C6_goal_reached_overrides 0 initialServerState ⟨(2, 0), (2, 0), 0, [0, 0, 0]⟩ rfl⟩

/-- C4 (amended): a replanning step whose dijkstra call returns the empty list
keeps the cursor, re-arms the needs-replan flag - but, contrary to the claim,
it also clears the stored path to the empty list (line 357). -/
theorem C4_empty_replan_clears_path (now : Int) (s : ServerState) (a g : Cell)
    (hf : s.path_needs_replan = true)
    (ha : s.current_robot_grid_pos_actual = some a)
    (hg : s.goal_grid_pos = some g)
    (hd : dijkstra grid_map a g = []) :
    (maybeReplan now s).2 = true ∧
    (maybeReplan now s).1.planned_path = [] ∧
    (maybeReplan now s).1.current_path_index = s.current_path_index ∧
    (maybeReplan now s).1.path_needs_replan = true := by
  unfold maybeReplan
  rw [if_pos (Or.inl hf), ha, hg]
  dsimp only
  simp [hd]

/-- A failed replan does not leave the stored path intact: with a populated
plan and an unpathable goal, the replan branch runs, the planner returns the
empty list, and the stored path is cleared rather than preserved. -/
theorem C4_counterexample :
    (maybeReplan 0 ⟨some (2, 0), some (2, 0), some (0, 0),
        [(2, 0), (2, 1)], 1, true, 0⟩).2 = true ∧
    dijkstra grid_map (2, 0) (0, 0) = [] ∧
    (maybeReplan 0 ⟨some (2, 0), some (2, 0), some (0, 0),
        [(2, 0), (2, 1)], 1, true, 0⟩).1.planned_path ≠ [(2, 0), (2, 1)] := by
  refine ⟨?_, ?_, ?_⟩ <;> decide

theorem C4_empty_replan_clears_path_witness :
    dijkstra grid_map (2, 0) (0, 0) = [] ∧
    ((maybeReplan 0 ⟨some (2, 0), some (2, 0), some (0, 0),
        [(2, 0), (2, 1)], 1, true, 0⟩).2 = true ∧
     (maybeReplan 0 ⟨some (2, 0), some (2, 0), some (0, 0),
        [(2, 0), (2, 1)], 1, true, 0⟩).1.planned_path = [] ∧
     (maybeReplan 0 ⟨some (2, 0), some (2, 0), some (0, 0),
        [(2, 0), (2, 1)], 1, true, 0⟩).1.current_path_index
        = (⟨some (2, 0), some (2, 0), some (0, 0),
            [(2, 0), (2, 1)], 1, true, 0⟩ : ServerState).current_path_index ∧
     (maybeReplan 0 ⟨some (2, 0), some (2, 0), some (0, 0),
        [(2, 0), (2, 1)], 1, true, 0⟩).1.path_needs_replan = true) :=
  ⟨by decide, C4_empty_replan_clears_path 0
    ⟨some (2, 0), some (2, 0), some (0, 0), [(2, 0), (2, 1)], 1, true, 0⟩
    (2, 0) (0, 0) rfl rfl rfl (by decide)⟩

/-! ## Claim C2: no speculative cursor advancement -/

theorem actionFromSegment_self (c : Cell) (θ : ℝ) :
    actionFromSegment c c θ = "stop" := by
  unfold actionFromSegment
  simp

theorem get_action_aligned (path : List Cell) (idx : Nat) (goal pp : Option Cell)
    (θ : ℝ) (sens : List Nat) (hlen : idx < path.length)
    (hpp : pp = path[idx]?) :
    (get_action_from_path path idx goal pp θ sens).2.2 = idx ∧
    ((get_action_from_path path idx goal pp θ sens).1 = "stop" ∨
      (get_action_from_path path idx goal pp θ sens).1 =
        actionFromSegment (path.getD idx (0, 0)) (path.getD (idx + 1) (0, 0)) θ) := by
  have hne : path ≠ [] := by
    intro h
    rw [h] at hlen
    simp at hlen
  have hidx : path[idx]? = some path[idx] := List.getElem?_eq_getElem hlen
  unfold get_action_from_path
  rw [hpp, hidx]
  rw [if_neg (by simp [hne])]
  dsimp only
  by_cases h1 : some path[idx] = goal
  · rw [if_pos h1]
    exact ⟨rfl, Or.inl rfl⟩
  · rw [if_neg h1]
    by_cases h2 : ¬ ((idx : Int) < (path.length : Int) - 1)
    · rw [if_pos h2]
      exact ⟨rfl, Or.inl rfl⟩
    · rw [if_neg h2]
      try dsimp only
      rw [if_neg (not_ne_iff.mpr (List.getD_eq_getElem _ _ hlen).symm)]
      exact ⟨rfl, Or.inr rfl⟩

theorem cA_idx_consistent (s : ServerState) (m : StatusMsg)
    (hc : PathConsistent s) :
    (computeAction s m).1.current_path_index = s.current_path_index := by
  unfold computeAction
  split_ifs with h0
  swap
  · rfl
  obtain ⟨hp, hpp0, hg0⟩ := h0
  obtain ⟨hlen, hppv⟩ := hc hp
  obtain ⟨hidx, hact⟩ := get_action_aligned s.planned_path s.current_path_index
    s.goal_grid_pos s.current_robot_grid_pos_path m.theta_rad m.sensors_binary hlen hppv
  dsimp only
  rw [hidx]
  split_ifs with h1 h2 h3 h4 <;> try rfl
  exfalso
  have h5 : s.current_robot_grid_pos_actual
      = some (s.planned_path.getD s.current_path_index (0, 0)) := by
    rw [h1, hppv, List.getElem?_eq_getElem hlen, List.getD_eq_getElem _ _ hlen]
  have hA : s.planned_path.getD s.current_path_index (0, 0)
      = s.planned_path.getD (s.current_path_index + 1) (0, 0) := by
    rw [h5] at h4
    exact Option.some.inj h4
  rcases hact with hs | hs
  · rw [h2.1] at hs
    exact absurd hs (by decide)
  · rw [hA, actionFromSegment_self] at hs
    rw [h2.1] at hs
    exact absurd hs (by decide)

/-- C2: a processed status message that does not trigger a replan never
advances the cursor of a consistently-tracked state; in particular, any
strict increase of the cursor would entail the claim's alignment of the
reported position with the new cursor cell. -/
theorem C2_no_speculative_advance (now : Int) (s : ServerState) (m : StatusMsg)
    (hc : PathConsistent s)
    (hrep : (processStatus now s m).2.2 = false) :
    (processStatus now s m).1.current_path_index = s.current_path_index ∧
    (s.current_path_index < (processStatus now s m).1.current_path_index →
      (processStatus now s m).1.planned_path[
          (processStatus now s m).1.current_path_index]? = some m.robot_grid_pos ∧
      (processStatus now s m).1.current_robot_grid_pos_path
          = some m.robot_grid_pos) := by
  have hmr : (maybeReplan now (updateBelief s m)).2 = false := by
    unfold processStatus at hrep
    exact hrep
  have heq : (maybeReplan now (updateBelief s m)).1 = updateBelief s m :=
    mR_false now (updateBelief s m) hmr
  have hc1 : PathConsistent (updateBelief s m) := by
    intro hne
    rw [uB_path] at hne
    obtain ⟨hl, hv⟩ := hc hne
    have hppne : s.current_robot_grid_pos_path ≠ none := by
      rw [hv, List.getElem?_eq_getElem hl]
      exact fun hcon => Option.noConfusion hcon
    refine ⟨?_, ?_⟩
    · rw [uB_idx, uB_path]
      exact hl
    · rw [uB_pathPos_some s m hppne, uB_idx, uB_path]
      exact hv
  have hidx : (processStatus now s m).1.current_path_index
      = s.current_path_index := by
    unfold processStatus
    dsimp only
    rw [gO_idx, heq, cA_idx_consistent (updateBelief s m) m hc1, uB_idx]
  refine ⟨hidx, fun hlt => absurd hlt ?_⟩
  rw [hidx]
  exact lt_irrefl _

theorem C2_no_speculative_advance_witness :
    PathConsistent (⟨some (2, 0), none, some (2, 0), [], 0, false, 0⟩ : ServerState) ∧
    (processStatus 0 ⟨some (2, 0), none, some (2, 0), [], 0, false, 0⟩
        ⟨(2, 0), (2, 0), 0, [0, 0, 0]⟩).2.2 = false ∧
    ((processStatus 0 ⟨some (2, 0), none, some (2, 0), [], 0, false, 0⟩
        ⟨(2, 0), (2, 0), 0, [0, 0, 0]⟩).1.current_path_index
        = (⟨some (2, 0), none, some (2, 0), [], 0, false, 0⟩ : ServerState).current_path_index ∧
     ((⟨some (2, 0), none, some (2, 0), [], 0, false, 0⟩ : ServerState).current_path_index
          < (processStatus 0 ⟨some (2, 0), none, some (2, 0), [], 0, false, 0⟩
              ⟨(2, 0), (2, 0), 0, [0, 0, 0]⟩).1.current_path_index →
       (processStatus 0 ⟨some (2, 0), none, some (2, 0), [], 0, false, 0⟩
           ⟨(2, 0), (2, 0), 0, [0, 0, 0]⟩).1.planned_path[
           (processStatus 0 ⟨some (2, 0), none, some (2, 0), [], 0, false, 0⟩
             ⟨(2, 0), (2, 0), 0, [0, 0, 0]⟩).1.current_path_index]?
           = some (⟨(2, 0), (2, 0), 0, [0, 0, 0]⟩ : StatusMsg).robot_grid_pos ∧
       (processStatus 0 ⟨some (2, 0), none, some (2, 0), [], 0, false, 0⟩
           ⟨(2, 0), (2, 0), 0, [0, 0, 0]⟩).1.current_robot_grid_pos_path
           = some (⟨(2, 0), (2, 0), 0, [0, 0, 0]⟩ : StatusMsg).robot_grid_pos)) :=
  ⟨fun h => absurd rfl h, by decide,
    C2_no_speculative_advance 0 ⟨some (2, 0), none, some (2, 0), [], 0, false, 0⟩
      ⟨(2, 0), (2, 0), 0, [0, 0, 0]⟩ (fun h => absurd rfl h) (by decide)⟩

/-! ## Claim C8: the angular-error dispatch of the action translator -/

theorem atan2_sin_cos (x : ℝ) :
    atan2 (Real.sin x) (Real.cos x) = toIocMod Real.two_pi_pos (-Real.pi) x := by
  unfold atan2
  rw [Complex.ofReal_cos, Complex.ofReal_sin]
  exact Complex.arg_cos_add_sin_mul_I_eq_toIocMod x

theorem atan2_norm_sub (target θ : ℝ) :
    atan2 (Real.sin (target - atan2 (Real.sin θ) (Real.cos θ)))
      (Real.cos (target - atan2 (Real.sin θ) (Real.cos θ))) = c8Error target θ := by
  unfold c8Error
  rw [atan2_sin_cos θ, atan2_sin_cos, atan2_sin_cos]
  have h := self_sub_toIocMod Real.two_pi_pos (-Real.pi) θ
  have h1 : target - toIocMod Real.two_pi_pos (-Real.pi) θ
      = (target - θ) + (toIocDiv Real.two_pi_pos (-Real.pi) θ) • (2 * Real.pi) := by
    rw [← h]
    ring
  rw [h1, toIocMod_add_zsmul]

theorem actionFromSegment_spec (p q : Cell) (θ : ℝ) (hstep : UnitStep p q) :
    actionFromSegment p q θ = c8SpecAction (q.1 - p.1) (q.2 - p.2) θ := by
  unfold actionFromSegment c8SpecAction
  dsimp only
  rcases hstep with ⟨h1, h2 | h2⟩ | ⟨h1, h2 | h2⟩
  · have hdr : q.1 - p.1 = 0 := by omega
    have hdc : q.2 - p.2 = 1 := by omega
    rw [hdr, hdc]
    rw [if_pos (show (1 : ℤ) = 1 ∧ (0 : ℤ) = 0 from ⟨rfl, rfl⟩),
      if_pos (show (1 : ℤ) = 1 ∧ (0 : ℤ) = 0 from ⟨rfl, rfl⟩)]
    dsimp only
    rw [atan2_norm_sub]
  · have hdr : q.1 - p.1 = 0 := by omega
    have hdc : q.2 - p.2 = -1 := by omega
    rw [hdr, hdc]
    rw [if_neg (show ¬ ((-1 : ℤ) = 1 ∧ (0 : ℤ) = 0) from by decide),
      if_pos (show (-1 : ℤ) = -1 ∧ (0 : ℤ) = 0 from ⟨rfl, rfl⟩),
      if_neg (show ¬ ((-1 : ℤ) = 1 ∧ (0 : ℤ) = 0) from by decide),
      if_pos (show (-1 : ℤ) = -1 ∧ (0 : ℤ) = 0 from ⟨rfl, rfl⟩)]
    dsimp only
    rw [atan2_norm_sub]
  · have hdr : q.1 - p.1 = 1 := by omega
    have hdc : q.2 - p.2 = 0 := by omega
    rw [hdr, hdc]
    rw [if_neg (show ¬ ((0 : ℤ) = 1 ∧ (1 : ℤ) = 0) from by decide),
      if_neg (show ¬ ((0 : ℤ) = -1 ∧ (1 : ℤ) = 0) from by decide),
      if_pos (show (1 : ℤ) = 1 ∧ (0 : ℤ) = 0 from ⟨rfl, rfl⟩),
      if_neg (show ¬ ((0 : ℤ) = 1 ∧ (1 : ℤ) = 0) from by decide),
      if_neg (show ¬ ((0 : ℤ) = -1 ∧ (1 : ℤ) = 0) from by decide),
      if_pos (show (1 : ℤ) = 1 ∧ (0 : ℤ) = 0 from ⟨rfl, rfl⟩)]
    dsimp only
    rw [atan2_norm_sub]
  · have hdr : q.1 - p.1 = -1 := by omega
    have hdc : q.2 - p.2 = 0 := by omega
    rw [hdr, hdc]
    rw [if_neg (show ¬ ((0 : ℤ) = 1 ∧ (-1 : ℤ) = 0) from by decide),
      if_neg (show ¬ ((0 : ℤ) = -1 ∧ (-1 : ℤ) = 0) from by decide),
      if_neg (show ¬ ((-1 : ℤ) = 1 ∧ (0 : ℤ) = 0) from by decide),
      if_pos (show (-1 : ℤ) = -1 ∧ (0 : ℤ) = 0 from ⟨rfl, rfl⟩),
      if_neg (show ¬ ((0 : ℤ) = 1 ∧ (-1 : ℤ) = 0) from by decide),
      if_neg (show ¬ ((0 : ℤ) = -1 ∧ (-1 : ℤ) = 0) from by decide),
      if_neg (show ¬ ((-1 : ℤ) = 1 ∧ (0 : ℤ) = 0) from by decide)]
    dsimp only
    rw [atan2_norm_sub]

/-- C8: on an in-range, aligned, non-goal unit-step segment, the action
translator emits exactly the spec rule: angular error as the atan2-normalized
difference between the table's target heading and theta, turn_left above the
threshold with positive error, turn_right above it with negative error,
forward otherwise. -/
theorem C8_segment_action (path : List Cell) (idx : Nat) (goal : Option Cell)
    (θ : ℝ) (sens : List Nat) (p q : Cell)
    (hp : path[idx]? = some p) (hq : path[idx + 1]? = some q)
    (hgoal : some p ≠ goal) (hstep : UnitStep p q) :
    get_action_from_path path idx goal (some p) θ sens
      = (c8SpecAction (q.1 - p.1) (q.2 - p.2) θ, some p, idx) := by
  have hlen : idx < path.length := by
    by_contra hcon
    rw [List.getElem?_eq_none (Nat.le_of_not_lt hcon)] at hp
    exact Option.noConfusion hp
  have hlen1 : idx + 1 < path.length := by
    by_contra hcon
    rw [List.getElem?_eq_none (Nat.le_of_not_lt hcon)] at hq
    exact Option.noConfusion hq
  have hne : path ≠ [] := by
    intro h
    rw [h] at hlen
    simp at hlen
  have hgdi : path.getD idx (0, 0) = p := by
    rw [List.getD_eq_getElem?_getD, hp]
    rfl
  have hgdn : path.getD (idx + 1) (0, 0) = q := by
    rw [List.getD_eq_getElem?_getD, hq]
    rfl
  unfold get_action_from_path
  rw [if_neg (by simp [hne])]
  dsimp only
  rw [if_neg hgoal]
  rw [if_neg (not_not_intro (show (idx : Int) < (path.length : Int) - 1 by omega))]
  try dsimp only
  rw [if_neg (not_ne_iff.mpr hgdi.symm)]
  rw [hgdi, hgdn, actionFromSegment_spec p q θ hstep]

theorem C8_segment_action_witness :
    ([((2 : ℤ), (0 : ℤ)), ((2 : ℤ), (1 : ℤ))] : List Cell)[0]? = some (2, 0) ∧
    ([((2 : ℤ), (0 : ℤ)), ((2 : ℤ), (1 : ℤ))] : List Cell)[0 + 1]? = some (2, 1) ∧
    (some ((2, 0) : Cell) ≠ some ((5, 5) : Cell)) ∧
    UnitStep (2, 0) (2, 1) ∧
    get_action_from_path [(2, 0), (2, 1)] 0 (some (5, 5)) (some (2, 0)) 0 []
      = (c8SpecAction (2 - 2) (1 - 0) 0, some (2, 0), 0) :=
  ⟨rfl, rfl, by decide, by unfold UnitStep; decide,
    C8_segment_action [(2, 0), (2, 1)] 0 (some (5, 5)) 0 [] (2, 0) (2, 1)
      rfl rfl (by decide) (by unfold UnitStep; decide)⟩

end ESP32
